import Mathlib

/-!
Verification of the tftp-server protocol engine and packet codec.

Bytes are modelled as natural numbers (meaningful values are `< 256`);
byte buffers are `List Nat`.  Rust strings are UTF-8 byte sequences and are
modelled directly as byte lists.  Machine integers (`u8`, `u16`, `u64`) are
naturals with explicit wrap-around (`% 2^16`) where the source wraps.
Fallible operations return `Option` / `Except`.
-/

namespace Tftp

/-- Byte list of an ASCII Lean string (used only for ASCII literals). -/
def strB (s : String) : List Nat := s.data.map Char.toNat

/-- ASCII-lowercase one byte, as Rust `u8::to_ascii_lowercase`. -/
def lowerByte (b : Nat) : Nat := if 65 ≤ b ∧ b ≤ 90 then b + 32 else b

/-- Rust `str::eq_ignore_ascii_case` on byte lists: equal length and
bytes equal up to ASCII case. -/
def eqIgnoreCase (a b : List Nat) : Bool := a.map lowerByte == b.map lowerByte

/-- Is the byte an ASCII decimal digit. -/
def isDigitB (b : Nat) : Bool := 48 ≤ b && b ≤ 57

/-- Value of a digit string read left to right (accumulator fold),
as Rust integer parsing accumulates. -/
def decVal (bs : List Nat) : Nat := bs.foldl (fun a b => a * 10 + (b - 48)) 0

/-- Fuel-driven minimal decimal rendering of a natural (ASCII digits,
most significant first).  Faithful to Rust `{}` formatting of integers. -/
def decRepAux : Nat → Nat → List Nat
  | 0, _ => []
  | fuel + 1, n => if n < 10 then [48 + n] else decRepAux fuel (n / 10) ++ [48 + n % 10]

/-- Decimal rendering of a natural, as Rust `write!("{}")` renders integers. -/
def decRep (n : Nat) : List Nat := decRepAux (n + 1) n

/-- Strip one optional leading `+` (byte 43), as Rust unsigned parsing does. -/
def parseCore (bs : List Nat) : List Nat :=
  match bs with
  | b :: rest => if b = 43 then rest else b :: rest
  | [] => []

/-- Rust `str::parse::<uN>` with maximum value `maxv`: optional leading `+`,
then one or more ASCII digits, value within bounds; anything else fails. -/
def parseUBound (maxv : Nat) (bs : List Nat) : Option Nat :=
  if parseCore bs ≠ [] ∧ (parseCore bs).all (fun b => isDigitB b) = true then
    if decVal (parseCore bs) ≤ maxv then some (decVal (parseCore bs)) else none
  else none

/-- Is the byte a UTF-8 continuation byte (`0x80..=0xBF`). -/
def contB (b : Nat) : Bool := 128 ≤ b && b ≤ 191

/-- UTF-8 validity of a byte sequence, faithful to Rust `str::from_utf8`
(rejects overlong encodings, surrogates and values above U+10FFFF). -/
def validUTF8 : List Nat → Bool
  | [] => true
  | b :: rest =>
    if b ≤ 127 then validUTF8 rest
    else match rest with
    | [] => false
    | c1 :: r1 =>
      if 194 ≤ b ∧ b ≤ 223 then contB c1 && validUTF8 r1
      else match r1 with
      | [] => false
      | c2 :: r2 =>
        if b = 224 then ((160 ≤ c1 ∧ c1 ≤ 191) && contB c2) && validUTF8 r2
        else if (225 ≤ b ∧ b ≤ 236) ∨ b = 238 ∨ b = 239 then
          (contB c1 && contB c2) && validUTF8 r2
        else if b = 237 then ((128 ≤ c1 ∧ c1 ≤ 159) && contB c2) && validUTF8 r2
        else match r2 with
        | [] => false
        | c3 :: r3 =>
          if b = 240 then ((144 ≤ c1 ∧ c1 ≤ 191) && (contB c2 && contB c3)) && validUTF8 r3
          else if 241 ≤ b ∧ b ≤ 243 then (contB c1 && (contB c2 && contB c3)) && validUTF8 r3
          else if b = 244 then ((128 ≤ c1 ∧ c1 ≤ 143) && (contB c2 && contB c3)) && validUTF8 r3
          else false

/-- Big-endian two-byte encoding of a `u16` value, as `byteorder` writes it. -/
def u16be (n : Nat) : List Nat := [n / 256 % 256, n % 256]

/-- Big-endian two-byte read, as `byteorder::ReadBytesExt::read_u16`:
fails when fewer than two bytes remain, otherwise consumes them. -/
def readU16 : List Nat → Option (Nat × List Nat)
  | a :: b :: rest => some (a * 256 + b, rest)
  | _ => none

/-- The nine TFTP error codes of `packet.rs`. -/
inductive ErrorCode where
  | NotDefined
  | FileNotFound
  | AccessViolation
  | DiskFull
  | IllegalTFTP
  | UnknownID
  | FileExists
  | NoUser
  | BadOption
deriving DecidableEq, Repr

/-- Wire value of an error code (`repr(u16)` discriminant). -/
def ErrorCode.toNat : ErrorCode → Nat
  | .NotDefined => 0
  | .FileNotFound => 1
  | .AccessViolation => 2
  | .DiskFull => 3
  | .IllegalTFTP => 4
  | .UnknownID => 5
  | .FileExists => 6
  | .NoUser => 7
  | .BadOption => 8

/-- `ErrorCode::from_u16`: accepts exactly the nine discriminants `0..=8`. -/
def ErrorCode.fromNat : Nat → Option ErrorCode
  | 0 => some .NotDefined
  | 1 => some .FileNotFound
  | 2 => some .AccessViolation
  | 3 => some .DiskFull
  | 4 => some .IllegalTFTP
  | 5 => some .UnknownID
  | 6 => some .FileExists
  | 7 => some .NoUser
  | 8 => some .BadOption
  | _ => none

/-- The three transfer modes of `packet.rs`. -/
inductive TransferMode where
  | Octet
  | Mail
  | Netascii
deriving DecidableEq, Repr

namespace Codec

/-- `options.rs` constant. -/
def MAX_BLOCKSIZE : Nat := 65464

/-- `packet.rs`: `MAX_PACKET_SIZE = MAX_BLOCKSIZE + 2 /*opcode size*/`. -/
def MAX_PACKET_SIZE : Nat := MAX_BLOCKSIZE + 2

/-- The option type of `options.rs` (exactly the three variants present
in that file). -/
inductive TftpOption where
  | Blocksize (v : Nat)
  | TransferSize (v : Nat)
  | Timeout (v : Nat)
deriving DecidableEq, Repr

/-- `TftpOption::write_to`: `name NUL decimal-value NUL`. -/
def TftpOption.writeTo : TftpOption → List Nat
  | .Blocksize v => strB (r"blksize") ++ [0] ++ decRep v ++ [0]
  | .TransferSize v => strB (r"tsize") ++ [0] ++ decRep v ++ [0]
  | .Timeout v => strB (r"timeout") ++ [0] ++ decRep v ++ [0]

/-- `TftpOption::try_from(name, value)` of `options.rs`: case-insensitive
name match against `blksize` / `timeout` / `tsize`, decimal value parse with
the type bound, `blksize` additionally bounded to `[8, MAX_BLOCKSIZE]`;
everything else yields `none`. -/
def TftpOption.tryFrom (name value : List Nat) : Option TftpOption :=
  if eqIgnoreCase name (strB (r"blksize")) then
    match parseUBound 65535 value with
    | some v => if 8 ≤ v ∧ v ≤ MAX_BLOCKSIZE then some (.Blocksize v) else none
    | none => none
  else if eqIgnoreCase name (strB (r"timeout")) then
    (parseUBound 255 value).map .Timeout
  else if eqIgnoreCase name (strB (r"tsize")) then
    (parseUBound (2 ^ 64 - 1) value).map .TransferSize
  else none

/-- The packet type of `packet.rs`; strings are UTF-8 byte lists. -/
inductive Packet where
  | RRQ (filename : List Nat) (mode : TransferMode) (options : List TftpOption)
  | WRQ (filename : List Nat) (mode : TransferMode) (options : List TftpOption)
  | DATA (blockNum : Nat) (data : List Nat)
  | ACK (blockNum : Nat)
  | ERROR (code : ErrorCode) (msg : List Nat)
  | OACK (options : List TftpOption)
deriving DecidableEq, Repr

/-- Mode name written by the `Display` impl. -/
def modeBytes : TransferMode → List Nat
  | .Octet => strB (r"octet")
  | .Mail => strB (r"mail")
  | .Netascii => strB (r"netascii")

/-- `TransferMode::try_from`: case-insensitive match against the three
mode names, in source order. -/
def modeFrom (s : List Nat) : Option TransferMode :=
  if eqIgnoreCase s (strB (r"octet")) then some .Octet
  else if eqIgnoreCase s (strB (r"netascii")) then some .Netascii
  else if eqIgnoreCase s (strB (r"mail")) then some .Mail
  else none

/-- Split a buffer at its first NUL byte: the bytes before it and the bytes
after it.  `none` when no NUL is present. -/
def splitAtZero : List Nat → Option (List Nat × List Nat)
  | [] => none
  | b :: rest =>
    if b = 0 then some ([], rest)
    else (splitAtZero rest).map (fun p => (b :: p.1, p.2))

/-- One step of the `Strings` iterator of `packet.rs`: find the first NUL,
UTF-8-validate the prefix (an invalid prefix yields `none` but the bytes
are still consumed), and advance past the NUL.  With no NUL the iterator
yields `none` and the bytes are unchanged. -/
def stringsNext (bs : List Nat) : Option (List Nat) × List Nat :=
  match splitAtZero bs with
  | none => (none, bs)
  | some (s, rest) => (if validUTF8 s then some s else none, rest)

/-- Fuel-driven `read_options` loop: take two strings per iteration and keep
the pairs `TftpOption::try_from` accepts; stop as soon as either string is
missing (no NUL, or invalid UTF-8). -/
def readOptionsAux : Nat → List Nat → List TftpOption
  | 0, _ => []
  | fuel + 1, bs =>
    let p1 := stringsNext bs
    let p2 := stringsNext p1.2
    match p1.1, p2.1 with
    | some name, some value =>
      match TftpOption.tryFrom name value with
      | some o => o :: readOptionsAux fuel p2.2
      | none => readOptionsAux fuel p2.2
    | _, _ => []

/-- `read_options` of `packet.rs`. -/
def readOptions (bs : List Nat) : List TftpOption := readOptionsAux (bs.length + 1) bs

/-- `read_rrq_packet` / `read_wrq_packet` body parsing (everything after the
opcode): cap at 512 bytes, then filename string, mode string, options. -/
def readReq (isWrite : Bool) (bs : List Nat) : Option Packet :=
  if bs.length > 512 then none
  else
    match stringsNext bs with
    | (some f, r1) =>
      match stringsNext r1 with
      | (some m, r2) =>
        match modeFrom m with
        | some mode =>
          some (if isWrite then .WRQ f mode (readOptions r2) else .RRQ f mode (readOptions r2))
        | none => none
      | (none, _) => none
    | (none, _) => none

/-- `Packet::read`: two-byte opcode dispatch, then the per-kind parser. -/
def Packet.read (bs : List Nat) : Option Packet :=
  match readU16 bs with
  | none => none
  | some (op, rest) =>
    match op with
    | 1 => readReq false rest
    | 2 => readReq true rest
    | 3 =>
      match readU16 rest with
      | some (b, d) => some (.DATA b d)
      | none => none
    | 4 =>
      match readU16 rest with
      | some (b, _) => some (.ACK b)
      | none => none
    | 5 =>
      match readU16 rest with
      | some (c, r) =>
        match ErrorCode.fromNat c with
        | some code =>
          match stringsNext r with
          | (some msg, _) => some (.ERROR code msg)
          | (none, _) => none
        | none => none
      | none => none
    | 6 => some (.OACK (readOptions rest))
    | _ => none

/-- `Packet::write_bytes_to`: the byte encoding of a packet. -/
def Packet.writeBytes : Packet → List Nat
  | .RRQ f mode o => u16be 1 ++ f ++ [0] ++ modeBytes mode ++ [0] ++ (o.map TftpOption.writeTo).flatten
  | .WRQ f mode o => u16be 2 ++ f ++ [0] ++ modeBytes mode ++ [0] ++ (o.map TftpOption.writeTo).flatten
  | .DATA b d => u16be 3 ++ u16be b ++ d
  | .ACK b => u16be 4 ++ u16be b
  | .ERROR c msg => u16be 5 ++ u16be c.toNat ++ msg ++ [0]
  | .OACK o => u16be 6 ++ (o.map TftpOption.writeTo).flatten

end Codec

deriving instance DecidableEq for Except

namespace Proto

/-- The option type as referenced by `tftp_proto.rs` (variants `Blocksize`,
`TimeoutSecs`, `TransferSize`, `WindowSize`).  Note that `options.rs` in this
snapshot defines a different (three-variant) option type; the protocol file
is authoritative for the protocol claims. -/
inductive TftpOption where
  | Blocksize (v : Nat)
  | TransferSize (v : Nat)
  | TimeoutSecs (v : Nat)
  | WindowSize (v : Nat)
deriving DecidableEq, Repr

/-- The packet type as consumed by `tftp_proto.rs`; strings are byte lists. -/
inductive Packet where
  | RRQ (filename : List Nat) (mode : TransferMode) (options : List TftpOption)
  | WRQ (filename : List Nat) (mode : TransferMode) (options : List TftpOption)
  | DATA (blockNum : Nat) (data : List Nat)
  | ACK (blockNum : Nat)
  | ERROR (code : ErrorCode) (msg : List Nat)
  | OACK (options : List TftpOption)
deriving DecidableEq, Repr

/-- Default human-readable message of an error code (`ErrorCode::to_string`). -/
def defaultMsg : ErrorCode → List Nat
  | .NotDefined => strB (r"Not defined, see error message (if any).")
  | .FileNotFound => strB (r"File not found.")
  | .AccessViolation => strB (r"Access violation.")
  | .DiskFull => strB (r"Disk full or allocation exceeded.")
  | .IllegalTFTP => strB (r"Illegal TFTP operation.")
  | .UnknownID => strB (r"Unknown transfer ID.")
  | .FileExists => strB (r"File already exists.")
  | .NoUser => strB (r"No such user.")
  | .BadOption => strB (r"Bad option.")

/-- `Packet::from(ErrorCode)`: an ERROR packet with the default message. -/
def errPacket (c : ErrorCode) : Packet := .ERROR c (defaultMsg c)

/-- `TftpError` of `tftp_proto.rs`. -/
inductive TftpError where
  | TransferAlreadyRunning
  | NotIniatingPacket
deriving DecidableEq, Repr

/-- `TftpResult` of `tftp_proto.rs`.  Per its doc comments, `Repeat` tells
the caller to resend the last packet. -/
inductive TftpResult where
  | Reply (p : Packet)
  | Repeat
  | Done (p : Option Packet)
  | Err (e : TftpError)
deriving DecidableEq, Repr

/-- `ResponseItem` of `tftp_proto.rs`. -/
inductive ResponseItem where
  | Packet (p : Packet)
  | Done
  | RepeatLast (n : Nat)
deriving DecidableEq, Repr

/-- `TransferMeta` of `tftp_proto.rs`. -/
structure TransferMeta where
  blocksize : Nat
  timeout : Option Nat
  timed_out : Bool
  window_size : Nat
deriving DecidableEq, Repr

/-- Capability of a Rust `Read` value of type `R`:
`takeRead r n` models `r.by_ref().take(n).read_to_end(&mut v)` — it returns
the bytes read and the advanced reader, or `none` for an I/O error. -/
structure Reader (R : Type) where
  takeRead : R → Nat → Option (List Nat × R)

/-- Capability of a Rust `Write` value of type `W`: `writeAll w bytes`
models `w.write_all(bytes)`, returning the advanced writer or `none`. -/
structure Writer (W : Type) where
  writeAll : W → List Nat → Option W

/-- The `IOAdapter` trait: `A` is the adapter state, `R`/`W` its reader and
writer types.  `open_read` borrows immutably (state unchanged); `create_new`
borrows mutably (returns the new state). -/
structure IOAdapter (A R W : Type) where
  open_read : A → List Nat → Option (R × Option Nat)
  create_new : A → List Nat → Option Nat → Option (W × A)

/-- `IOPolicyCfg` of `tftp_proto.rs`; `path` is the optional base directory. -/
structure IOPolicyCfg where
  readonly : Bool
  path : Option (List Nat)

/-- Rust `std::path` component classification (Unix, no prefixes). -/
inductive PathComp where
  | RootDir
  | CurDir
  | ParentDir
  | Normal (s : List Nat)
deriving DecidableEq, Repr

/-- Split a byte path on `/` separators. -/
def splitSlash : List Nat → List (List Nat)
  | [] => [[]]
  | b :: rest =>
    let ss := splitSlash rest
    if b = 47 then [] :: ss
    else match ss with
      | s :: tl => (b :: s) :: tl
      | [] => [[b]]

/-- `Path::has_root` on Unix: the path begins with a separator. -/
def pathHasRoot (p : List Nat) : Bool :=
  match p with
  | 47 :: _ => true
  | _ => false

/-- `Path::is_absolute` on Unix coincides with `has_root`. -/
def pathIsAbsolute (p : List Nat) : Bool := pathHasRoot p

/-- `Path::components` on Unix: a leading `RootDir` for absolute paths, a
leading `CurDir` only when the path is `.` or starts with `./`, empty and
`.` segments skipped, `..` segments as `ParentDir`. -/
def pathComponents (p : List Nat) : List PathComp :=
  let segs := (splitSlash p).filter (fun s => s ≠ [] ∧ s ≠ [46])
  let comps := segs.map (fun s => if s = [46, 46] then PathComp.ParentDir else PathComp.Normal s)
  if pathHasRoot p then PathComp.RootDir :: comps
  else if p = [46] ∨ p.take 2 = [46, 47] then PathComp.CurDir :: comps
  else comps

/-- Is the component a `RootDir` or `ParentDir` (the ones the policy rejects). -/
def badComp : PathComp → Bool
  | .RootDir => true
  | .ParentDir => true
  | _ => false

/-- The path test performed by both `IOPolicyProxy` operations:
`file.is_absolute() || file.components().any(RootDir-or-ParentDir)`. -/
def pathRejected (p : List Nat) : Bool :=
  pathIsAbsolute p || (pathComponents p).any badComp

/-- `PathBuf::join` on Unix: an absolute right side replaces the base. -/
def pathJoin (base file : List Nat) : List Nat :=
  if pathHasRoot file then file
  else if base = [] then file
  else if base.getLast? = some 47 then base ++ file
  else base ++ [47] ++ file

/-- `IOPolicyProxy::open_read`: reject unsafe paths, else delegate
(joining the configured base directory when present). -/
def policyOpenRead (io : IOAdapter A R W) (cfg : IOPolicyCfg) (a : A) (file : List Nat) :
    Option (R × Option Nat) :=
  if pathRejected file then none
  else match cfg.path with
    | some base => io.open_read a (pathJoin base file)
    | none => io.open_read a file

/-- `IOPolicyProxy::create_new`: additionally fails unconditionally when the
policy is readonly. -/
def policyCreateNew (io : IOAdapter A R W) (cfg : IOPolicyCfg) (a : A) (file : List Nat)
    (len : Option Nat) : Option (W × A) :=
  if cfg.readonly || pathRejected file then none
  else match cfg.path with
    | some base => io.create_new a (pathJoin base file) len
    | none => io.create_new a file len

/-- `TransferRx` of `tftp_proto.rs`. -/
structure TransferRx (W : Type) where
  fwrite : W
  expected_block_num : Nat
  meta : TransferMeta
deriving DecidableEq, Repr

/-- `TransferTx` of `tftp_proto.rs`. -/
structure TransferTx (R : Type) where
  fread : R
  expected_block_num : Nat
  sent_final : Bool
  meta : TransferMeta
deriving DecidableEq, Repr

/-- `Transfer` of `tftp_proto.rs`. -/
inductive Transfer (R W : Type) where
  | Rx (t : TransferRx W)
  | Tx (t : TransferTx R)
  | Complete
deriving DecidableEq, Repr

/-- `Transfer::is_done`. -/
def Transfer.isDone : Transfer R W → Bool
  | .Complete => true
  | _ => false

/-- RFC 1982 forward serial distance from `a` to `b` on 16-bit values. -/
def snaDist (a b : Nat) : Nat := (b % 65536 + 65536 - a % 65536) % 65536

/-- Serial-number `<` of the `sna` crate (per the spec's definition):
`a < b` iff the forward distance from `a` to `b` lies in `(0, 2^15)`. -/
def snaLt (a b : Nat) : Bool := 0 < snaDist a b && snaDist a b < 32768

/-- Serial-number `>=`: equality of the 16-bit values or `b < a`. -/
def snaGe (a b : Nat) : Bool := a % 65536 == b % 65536 || snaLt b a

/-- `TransferTx::read_step`: read up to `blocksize` bytes, set `sent_final`
on a short read, advance the block number (wrapping) and build the DATA
packet; an I/O error becomes `ERROR(NotDefined)`. -/
def readStep (cap : Reader R) (tx : TransferTx R) : TransferTx R × Except Packet Packet :=
  match cap.takeRead tx.fread tx.meta.blocksize with
  | none => (tx, .error (errPacket .NotDefined))
  | some (v, r) =>
    let tx2 : TransferTx R :=
      { tx with
        fread := r
        sent_final := decide (v.length < tx.meta.blocksize)
        expected_block_num := (tx.expected_block_num + 1) % 65536 }
    (tx2, .ok (.DATA tx2.expected_block_num v))

/-- The `for _ in window_start..window_size` loop of `handle_ack`: emit up to
`fuel` fresh DATA packets, stopping after a short read; a read failure
discards the accumulated items and returns `[ERROR(NotDefined), Done]`. -/
def sendLoop (cap : Reader R) : Nat → TransferTx R → List ResponseItem →
    List ResponseItem × TransferTx R
  | 0, tx, v => (v, tx)
  | fuel + 1, tx, v =>
    match readStep cap tx with
    | (tx2, .error p) => ([.Packet p, .Done], tx2)
    | (tx2, .ok p) =>
      if tx2.sent_final then (v ++ [.Packet p], tx2)
      else sendLoop cap fuel tx2 (v ++ [.Packet p])

/-- `TransferTx::handle_ack`.  The source's counting loop computes the
forward serial distance from the ACK to the last-emitted block; `windowStart`
is that distance when the ACK lies in the repeat range. -/
def handleAck (cap : Reader R) (tx : TransferTx R) (ackBlock : Nat) :
    List ResponseItem × TransferTx R :=
  let expected := tx.expected_block_num
  let wsize := tx.meta.window_size
  let inRepeat := snaLt ackBlock expected && snaGe ((ackBlock + wsize) % 65536) expected
  let windowStart := if inRepeat then snaDist ackBlock expected else 0
  let v : List ResponseItem := if inRepeat then [.RepeatLast windowStart] else []
  if wsize = 1 ∧ (ackBlock + 1) % 65536 = expected % 65536 then
    ([.RepeatLast 1], tx)
  else if wsize = 1 ∧ ackBlock % 65536 ≠ expected % 65536 then
    ([.Packet (.ERROR .UnknownID (strB (r"Incorrect block num in ACK"))), .Done], tx)
  else if tx.sent_final then
    ([.Done], tx)
  else
    let tx2 : TransferTx R := { tx with meta := { tx.meta with timed_out := false } }
    sendLoop cap (wsize - windowStart) tx2 v

/-- `TransferRx::handle_data`: only the exactly-expected block is accepted;
it is written to the sink, the expected block advances (wrapping) and an ACK
is emitted, with `Done` appended on a short (final) data block. -/
def handleData (wcap : Writer W) (rxt : TransferRx W) (blockNum : Nat) (data : List Nat) :
    List ResponseItem × TransferRx W :=
  if blockNum % 65536 ≠ rxt.expected_block_num % 65536 then
    ([.Packet (.ERROR .IllegalTFTP (strB (r"Data packet lost"))), .Done], rxt)
  else
    let rx1 : TransferRx W := { rxt with meta := { rxt.meta with timed_out := false } }
    match wcap.writeAll rx1.fwrite data with
    | none => ([.Packet (errPacket .NotDefined), .Done], rx1)
    | some w2 =>
      let rxA : TransferRx W :=
        { rx1 with fwrite := w2, expected_block_num := (blockNum + 1) % 65536 }
      if data.length < rxA.meta.blocksize then ([.Packet (.ACK blockNum), .Done], rxA)
      else ([.Packet (.ACK blockNum)], rxA)

/-- `Transfer::timeout_expired`: first expiry on a live transfer sets
`timed_out` and asks for a resend of the last packet; a second expiry (or a
completed transfer) terminates. -/
def timeoutExpired : Transfer R W → TftpResult × Transfer R W
  | .Rx t =>
    if t.meta.timed_out then (.Done none, .Complete)
    else (.Repeat, .Rx { t with meta := { t.meta with timed_out := true } })
  | .Tx t =>
    if t.meta.timed_out then (.Done none, .Complete)
    else (.Repeat, .Tx { t with meta := { t.meta with timed_out := true } })
  | .Complete => (.Done none, .Complete)

/-- `Transfer::rx2`: dispatch a received packet by kind and transfer variant,
then transition to `Complete` exactly when the response contains `Done`. -/
def rx2 (cap : Reader R) (wcap : Writer W) (t : Transfer R W) (p : Packet) :
    Except TftpError (List ResponseItem) × Transfer R W :=
  if t.isDone then (.ok [.Done], t)
  else
    let step : Except TftpError (List ResponseItem) × Transfer R W :=
      match p, t with
      | .ACK a, .Tx tx =>
        let q := handleAck cap tx a
        (.ok q.1, .Tx q.2)
      | .DATA b d, .Rx rxt =>
        let q := handleData wcap rxt b d
        (.ok q.1, .Rx q.2)
      | .DATA _ _, _ => (.ok [.Packet (errPacket .IllegalTFTP), .Done], t)
      | .ACK _, _ => (.ok [.Packet (errPacket .IllegalTFTP), .Done], t)
      | .ERROR _ _, _ => (.ok [.Done], t)
      | _, _ => (.error .TransferAlreadyRunning, t)
    match step with
    | (.ok resp, t2) => if resp.contains .Done then (.ok resp, .Complete) else (.ok resp, t2)
    | e => e

/-- `Transfer::rx`: the wrapper that collapses a `Response` to a
`TftpResult` via a pattern match on its first two items; `none` models the
`panic!` fall-through arm (and the `unwrap` of an empty response). -/
def rx (cap : Reader R) (wcap : Writer W) (t : Transfer R W) (p : Packet) :
    Option TftpResult × Transfer R W :=
  match rx2 cap wcap t p with
  | (.error e, t2) => (some (.Err e), t2)
  | (.ok resp, t2) =>
    let res : Option TftpResult :=
      match resp with
      | .RepeatLast 1 :: _ => some .Repeat
      | [.Packet q] => some (.Reply q)
      | .Packet q :: .Done :: _ => some (.Done (some q))
      | .Done :: _ => some (.Done none)
      | _ => none
    (res, t2)

/-- The option-filtering closure of `rx_initial`, folded over the request's
options in arrival order: each recognized option updates the meta (or the
`tsize` request) and is retained, except that `TransferSize` on a read is
taken out of the echoed list. -/
def filterOpts (isWrite : Bool) : List TftpOption → TransferMeta → Option Nat →
    TransferMeta × Option Nat × List TftpOption
  | [], meta, tsize => (meta, tsize, [])
  | o :: rest, meta, tsize =>
    match o with
    | .Blocksize sz =>
      let q := filterOpts isWrite rest { meta with blocksize := sz } tsize
      (q.1, q.2.1, o :: q.2.2)
    | .TimeoutSecs s =>
      let q := filterOpts isWrite rest { meta with timeout := some s } tsize
      (q.1, q.2.1, o :: q.2.2)
    | .TransferSize sz =>
      if isWrite then
        let q := filterOpts isWrite rest meta (some sz)
        (q.1, q.2.1, o :: q.2.2)
      else
        filterOpts isWrite rest meta (some sz)
    | .WindowSize sz =>
      let q := filterOpts isWrite rest { meta with window_size := sz } tsize
      (q.1, q.2.1, o :: q.2.2)

/-- `Transfer::new_read`: with no accepted options, immediately read the
first block (failure aborts the transfer); otherwise reply with an OACK. -/
def newRead (cap : Reader R) (fread : R) (meta : TransferMeta) (options : List TftpOption) :
    Option (Transfer R W) × Packet :=
  let tx : TransferTx R :=
    { fread := fread, expected_block_num := 0, sent_final := false, meta := meta }
  if options.isEmpty then
    match readStep cap tx with
    | (tx2, .ok p) => (some (.Tx tx2), p)
    | (_, .error p) => (none, p)
  else (some (.Tx tx), .OACK options)

/-- `Transfer::new_write`: reply `ACK(0)` (no options) or an OACK. -/
def newWrite (fwrite : W) (meta : TransferMeta) (options : List TftpOption) :
    Option (Transfer R W) × Packet :=
  let rxt : TransferRx W := { fwrite := fwrite, expected_block_num := 1, meta := meta }
  (some (.Rx rxt), if options.isEmpty then .ACK 0 else .OACK options)

/-- The `TransferMeta` defaults installed by `rx_initial`. -/
def defaultMeta : TransferMeta :=
  { blocksize := 512, timeout := none, timed_out := false, window_size := 1 }

/-- `TftpServerProto::rx_initial`: accept only RRQ/WRQ, check the mode,
filter the options, then open/create the file through the policy proxy and
build the initial transfer and reply.  The adapter state is threaded
explicitly (the proto owns the proxy). -/
def rxInitial (cap : Reader R) (io : IOAdapter A R W) (cfg : IOPolicyCfg) (a : A)
    (p : Packet) : (Option (Transfer R W) × Except TftpError Packet) × A :=
  match p with
  | .RRQ filename mode options =>
    (match mode with
     | .Mail => ((none, .ok (errPacket .NoUser)), a)
     | .Netascii => ((none, .ok (errPacket .NotDefined)), a)
     | .Octet =>
       let q := filterOpts false options defaultMeta none
       match policyOpenRead io cfg a filename with
       | none => ((none, .ok (errPacket .FileNotFound)), a)
       | some (fread, len) =>
         let options2 := match q.2.1, len with
           | some _, some fileSize => q.2.2 ++ [.TransferSize fileSize]
           | _, _ => q.2.2
         let nr := newRead (W := W) cap fread q.1 options2
         ((nr.1, .ok nr.2), a))
  | .WRQ filename mode options =>
    (match mode with
     | .Mail => ((none, .ok (errPacket .NoUser)), a)
     | .Netascii => ((none, .ok (errPacket .NotDefined)), a)
     | .Octet =>
       let q := filterOpts true options defaultMeta none
       match policyCreateNew io cfg a filename q.2.1 with
       | none => ((none, .ok (errPacket .FileExists)), a)
       | some (fwrite, a2) =>
         let nw := newWrite (R := R) fwrite q.1 q.2.2
         ((nw.1, .ok nw.2), a2))
  | _ => ((none, .error .NotIniatingPacket), a)

/-- Number of previously-sent packets a `TftpResult` asks the caller to
resend: per the `TftpResult` doc comments, `Repeat` means "resend the last
packet" (exactly one); no other variant requests a retransmission. -/
def resendCount : TftpResult → Nat
  | .Repeat => 1
  | _ => 0

/-- Statement helper: the `timed_out` flag of a transfer (`true` for
`Complete`, which can never retransmit again). -/
def transferTimedOut : Transfer R W → Bool
  | .Rx t => t.meta.timed_out
  | .Tx t => t.meta.timed_out
  | .Complete => true

/-- Statement helper: the window size of a transfer (`1`, the default, for
`Complete`). -/
def transferWindow : Transfer R W → Nat
  | .Rx t => t.meta.window_size
  | .Tx t => t.meta.window_size
  | .Complete => 1

/-- Statement helper: how many fresh DATA packets a response carries. -/
def countDATA (l : List ResponseItem) : Nat :=
  l.countP (fun i => match i with | .Packet (.DATA _ _) => true | _ => false)

/-- Statement helper: how many `RepeatLast` items a response carries. -/
def countRepeat (l : List ResponseItem) : Nat :=
  l.countP (fun i => match i with | .RepeatLast _ => true | _ => false)

/-- A concrete `Read` capability over a queue of chunks: each `read_step`
takes the next chunk (end of file yields an empty read). -/
def chunksReader : Reader (List (List Nat)) :=
  ⟨fun r _n =>
    match r with
    | [] => some ([], [])
    | c :: rest => some (c, rest)⟩

/-- A concrete `Write` capability accumulating all written bytes. -/
def accWriter : Writer (List Nat) := ⟨fun w bs => some (w ++ bs)⟩

/-- A concrete `IOAdapter` with trivial readers and writers, for
instantiating the universally-quantified theorems. -/
def unitAdapter : IOAdapter Unit (List (List Nat)) (List Nat) :=
  ⟨fun _ _ => some ([], none), fun _ _ _ => some ([], ())⟩

end Proto

namespace Codec

/-- Well-formedness of a wire string: valid UTF-8 and NUL-free (what the
`Strings` iterator can ever produce, and what encodes unambiguously). -/
def strWF (s : List Nat) : Prop := validUTF8 s = true ∧ ¬ 0 ∈ s

/-- Well-formedness of an option value: the documented bounds (`blksize`
in `[8, 65464]`, `timeout` a `u8`, `tsize` a `u64`). -/
def optWF : TftpOption → Prop
  | .Blocksize v => 8 ≤ v ∧ v ≤ MAX_BLOCKSIZE
  | .TransferSize v => v < 2 ^ 64
  | .Timeout v => v < 256

/-- Well-formedness of a packet value: string fields are valid NUL-free
UTF-8, block numbers are `u16`, options are within the documented bounds,
and requests fit the 512-byte request-body ceiling. -/
def Packet.wf : Packet → Prop
  | .RRQ f m o =>
    strWF f ∧ (∀ x ∈ o, optWF x) ∧ (Packet.writeBytes (.RRQ f m o)).length ≤ 514
  | .WRQ f m o =>
    strWF f ∧ (∀ x ∈ o, optWF x) ∧ (Packet.writeBytes (.WRQ f m o)).length ≤ 514
  | .DATA b _ => b < 65536
  | .ACK b => b < 65536
  | .ERROR _ m => strWF m
  | .OACK o => ∀ x ∈ o, optWF x

/-- Statement helper: the canonical wire name of an option. -/
def optName : TftpOption → List Nat
  | .Blocksize _ => strB (r"blksize")
  | .TransferSize _ => strB (r"tsize")
  | .Timeout _ => strB (r"timeout")

/-- Statement helper: the numeric value of an option. -/
def optVal : TftpOption → Nat
  | .Blocksize v => v
  | .TransferSize v => v
  | .Timeout v => v

end Codec

namespace Proto

/-- C6: processing a received ERROR packet via `rx2` returns the response
`[Done]` — a `Done` item and no reply packet — and the transfer is
`Complete` afterwards, from every prior state (Rx, Tx or Complete). -/
theorem c6_error_terminates {R W : Type} (cap : Reader R) (wcap : Writer W)
    (t : Transfer R W) (c : ErrorCode) (m : List Nat) :
    rx2 cap wcap t (.ERROR c m) = (.ok [.Done], .Complete) := by
  cases t <;> simp [rx2, Transfer.isDone, List.contains]

/-- C7: for every packet processed by `rx2`, when the call returns an `ok`
response the transfer is `Complete` afterwards exactly when the response
contains a `Done` item; and a `Complete` transfer always answers exactly
`[Done]` (no packet items) and stays `Complete`. -/
theorem c7_complete_iff_done {R W : Type} (cap : Reader R) (wcap : Writer W) :
    (∀ (t : Transfer R W) (p : Packet) (resp : List ResponseItem),
        (rx2 cap wcap t p).1 = .ok resp →
        ((rx2 cap wcap t p).2 = .Complete ↔ resp.contains .Done = true)) ∧
    (∀ p : Packet, rx2 cap wcap .Complete p = (.ok [.Done], .Complete)) := by
  constructor
  · intro t p resp h
    cases t <;> cases p <;>
      simp only [rx2, Transfer.isDone, Bool.false_eq_true, if_false, if_true,
        reduceCtorEq, Except.ok.injEq] at h ⊢
    all_goals try subst h
    all_goals try (split <;> simp_all)
    all_goals simp_all
  · intro p
    simp [rx2, Transfer.isDone]

/-- C7 witness: the iff applied to a concrete completed-by-final-ACK
transfer whose response is `[Done]`. -/
theorem c7_witness :
    (rx2 chunksReader accWriter (Transfer.Tx ⟨[], 5, true, ⟨512, none, false, 1⟩⟩)
        (.ACK 5)).2 = .Complete ↔ ([ResponseItem.Done]).contains .Done = true :=
  (c7_complete_iff_done chunksReader accWriter).1 _ (.ACK 5) [.Done] (by decide)

/-- C5 counterexample: on a Tx transfer with `window_size = 2` (not yet
timed out), the first `timeout_expired` returns `TftpResult::Repeat`, which
by the source's own doc comment retransmits exactly one packet — not the
whole outstanding window of `window_size = 2` packets as the claim states. -/
theorem c5_counterexample :
    (timeoutExpired (R := Unit) (W := Unit)
        (.Tx ⟨(), 3, false, ⟨512, none, false, 2⟩⟩)).1 = .Repeat ∧
    resendCount .Repeat = 1 ∧ (1 : Nat) ≠ 2 := by
  refine ⟨by decide, by decide, by decide⟩

/-- C5 (amended): on a live transfer that has not yet timed out, the first
`timeout_expired` returns `Repeat` (a retransmission of the last sent
packet, regardless of window size) without completing the transfer; the
second returns `Done(None)` and the transfer is `Complete`; every further
call returns `Done(None)` — a third retransmission never occurs. -/
theorem c5_two_strikes {R W : Type} (t : Transfer R W)
    (hlive : t.isDone = false) (hfresh : transferTimedOut t = false) :
    (timeoutExpired t).1 = .Repeat ∧
    (timeoutExpired t).2.isDone = false ∧
    (timeoutExpired (timeoutExpired t).2).1 = .Done none ∧
    (timeoutExpired (timeoutExpired t).2).2 = .Complete ∧
    (timeoutExpired (timeoutExpired (timeoutExpired t).2).2).1 = .Done none ∧
    (timeoutExpired (timeoutExpired (timeoutExpired t).2).2).2 = .Complete := by
  cases t <;> simp_all [timeoutExpired, transferTimedOut, Transfer.isDone]

/-- C5 witness: the two-strikes theorem applied to a concrete live Rx
transfer. -/
theorem c5_witness :
    (timeoutExpired (R := Unit) (W := Unit)
        (.Rx ⟨(), 1, ⟨512, none, false, 1⟩⟩)).1 = .Repeat ∧
    (timeoutExpired (timeoutExpired (R := Unit) (W := Unit)
        (.Rx ⟨(), 1, ⟨512, none, false, 1⟩⟩)).2).2 = .Complete :=
  ⟨(c5_two_strikes (.Rx ⟨(), 1, ⟨512, none, false, 1⟩⟩) (by decide) (by decide)).1,
   (c5_two_strikes (.Rx ⟨(), 1, ⟨512, none, false, 1⟩⟩) (by decide) (by decide)).2.2.2.1⟩

/-- C1: for every filename that is an absolute path or has a
parent-directory (`..`) or root-dir component, both policy-proxy operations
fail for every underlying capability and every policy configuration, and
`rx_initial` on an octet-mode RRQ (resp. WRQ) for that filename returns
`ERROR(FileNotFound)` (resp. `ERROR(FileExists)`) with no Transfer created
and the adapter state untouched. -/
theorem c1_path_safety {A R W : Type} (cap : Reader R) (io : IOAdapter A R W)
    (cfg : IOPolicyCfg) (a : A) (f : List Nat)
    (h : pathIsAbsolute f = true ∨ (pathComponents f).any badComp = true)
    (opts : List TftpOption) (len : Option Nat) :
    policyOpenRead io cfg a f = none ∧
    policyCreateNew io cfg a f len = none ∧
    rxInitial cap io cfg a (.RRQ f .Octet opts) = ((none, .ok (errPacket .FileNotFound)), a) ∧
    rxInitial cap io cfg a (.WRQ f .Octet opts) = ((none, .ok (errPacket .FileExists)), a) := by
  have hrej : pathRejected f = true := by
    unfold pathRejected
    rcases h with h | h <;> simp [h]
  refine ⟨?_, ?_, ?_, ?_⟩ <;>
    simp [policyOpenRead, policyCreateNew, rxInitial, hrej]

/-- C1 witness: the path-safety theorem applied to the concrete filename
`../up.txt`, adapter and configuration. -/
theorem c1_witness :
    pathRejected (strB (r"../up.txt")) = true ∧
    (rxInitial chunksReader unitAdapter ⟨false, none⟩ ()
        (.RRQ (strB (r"../up.txt")) .Octet [])).1 =
      (none, .ok (errPacket .FileNotFound)) ∧
    (rxInitial chunksReader unitAdapter ⟨false, none⟩ ()
        (.WRQ (strB (r"../up.txt")) .Octet [])).1 =
      (none, .ok (errPacket .FileExists)) := by
  have h := c1_path_safety chunksReader unitAdapter ⟨false, none⟩ () (strB (r"../up.txt"))
      (Or.inr (by decide)) [] none
  exact ⟨by decide, by rw [h.2.2.1], by rw [h.2.2.2]⟩

theorem snaLt_self_eq_false (a e : Nat) (h : a % 65536 = e % 65536) :
    snaLt a e = false := by
  unfold snaLt snaDist
  rw [h]
  have h0 : (e % 65536 + 65536 - e % 65536) % 65536 = 0 := by omega
  simp [h0]

theorem readStep_error_eq {R : Type} (cap : Reader R) (tx tx2 : TransferTx R) (p : Packet)
    (h : readStep cap tx = (tx2, .error p)) : p = errPacket .NotDefined := by
  unfold readStep at h
  rcases htr : cap.takeRead tx.fread tx.meta.blocksize with _ | ⟨v, r⟩ <;>
    rw [htr] at h <;> simp_all

theorem readStep_ok_data {R : Type} (cap : Reader R) (tx tx2 : TransferTx R) (p : Packet)
    (h : readStep cap tx = (tx2, .ok p)) : ∃ b d, p = .DATA b d := by
  unfold readStep at h
  rcases htr : cap.takeRead tx.fread tx.meta.blocksize with _ | ⟨v, r⟩ <;>
    rw [htr] at h <;> simp_all
  exact ⟨_, _, h.2.symm⟩

theorem sendLoop_one_shape {R : Type} (cap : Reader R) (tx : TransferTx R) :
    (∃ pk, (sendLoop cap 1 tx []).1 = [.Packet pk]) ∨
    (∃ pk, (sendLoop cap 1 tx []).1 = [.Packet pk, .Done]) := by
  rcases hr : readStep cap tx with ⟨tx2, e⟩
  cases e with
  | error p =>
    right
    exact ⟨p, by simp [sendLoop, hr]⟩
  | ok p =>
    left
    refine ⟨p, ?_⟩
    simp only [sendLoop, hr]
    split <;> simp [sendLoop]

/-- With window size 1, `handle_ack` responses have one of four shapes. -/
theorem handleAck_w1_shape {R : Type} (cap : Reader R) (tx : TransferTx R) (a : Nat)
    (hw : tx.meta.window_size = 1) :
    (handleAck cap tx a).1 = [.RepeatLast 1] ∨
    (∃ pk, (handleAck cap tx a).1 = [.Packet pk]) ∨
    (∃ pk, (handleAck cap tx a).1 = [.Packet pk, .Done]) ∨
    (handleAck cap tx a).1 = [.Done] := by
  by_cases h1 : (a + 1) % 65536 = tx.expected_block_num % 65536
  · left
    simp [handleAck, hw, h1]
  · by_cases h2 : a % 65536 = tx.expected_block_num % 65536
    · by_cases h3 : tx.sent_final = true
      · right; right; right
        simp [handleAck, hw, h1, h2, h3]
      · have hlt : snaLt a tx.expected_block_num = false :=
          snaLt_self_eq_false _ _ h2
        have hshape :=
          sendLoop_one_shape cap { tx with meta := { tx.meta with timed_out := false } }
        have hred : (handleAck cap tx a).1 =
            (sendLoop cap 1 { tx with meta := { tx.meta with timed_out := false } } []).1 := by
          simp [handleAck, hw, h1, h2, h3, hlt]
        rw [hred]
        rcases hshape with h | h
        · right; left; exact h
        · right; right; left; exact h
    · right; right; left
      refine ⟨.ERROR .UnknownID (strB (r"Incorrect block num in ACK")), ?_⟩
      simp [handleAck, hw, h1, h2]

/-- `handle_data` responses always have one of two shapes (any window). -/
theorem handleData_shape {W : Type} (wcap : Writer W) (rxt : TransferRx W) (b : Nat)
    (d : List Nat) :
    (∃ pk, (handleData wcap rxt b d).1 = [.Packet pk]) ∨
    (∃ pk, (handleData wcap rxt b d).1 = [.Packet pk, .Done]) := by
  by_cases h1 : b % 65536 = rxt.expected_block_num % 65536
  · rcases hw : wcap.writeAll rxt.fwrite d with _ | w2
    · right
      exact ⟨errPacket .NotDefined, by simp [handleData, h1, hw]⟩
    · by_cases h2 : d.length < rxt.meta.blocksize
      · right
        exact ⟨.ACK b, by simp [handleData, h1, hw, h2]⟩
      · left
        exact ⟨.ACK b, by simp [handleData, h1, hw, h2]⟩
  · right
    exact ⟨.ERROR .IllegalTFTP (strB (r"Data packet lost")), by simp [handleData, h1]⟩

theorem rx2_fst_tx_ack {R W : Type} (cap : Reader R) (wcap : Writer W)
    (tx : TransferTx R) (a : Nat) :
    (rx2 cap wcap (.Tx tx) (.ACK a)).1 = .ok (handleAck cap tx a).1 := by
  simp only [rx2, Transfer.isDone, Bool.false_eq_true, if_false]
  split <;> rfl

theorem rx2_fst_rx_data {R W : Type} (cap : Reader R) (wcap : Writer W)
    (rxt : TransferRx W) (b : Nat) (d : List Nat) :
    (rx2 cap wcap (.Rx rxt) (.DATA b d)).1 = .ok (handleData wcap rxt b d).1 := by
  simp only [rx2, Transfer.isDone, Bool.false_eq_true, if_false]
  split <;> rfl

/-- C10: on a transfer whose window size is 1 (the default), every `Ok`
response of `rx2` has one of the four shapes the `rx` wrapper handles —
`[Done]`, a single packet, a packet followed by `Done`, or `[RepeatLast 1]`
— so the wrapper's `panic!` fall-through arm (modelled as `none`) is never
reached and `rx` never panics. -/
theorem c10_w1_no_panic {R W : Type} (cap : Reader R) (wcap : Writer W)
    (t : Transfer R W) (p : Packet) (hw : transferWindow t = 1) :
    (∀ resp, (rx2 cap wcap t p).1 = .ok resp →
        (resp = [.Done] ∨ (∃ pk, resp = [.Packet pk]) ∨
         (∃ pk, resp = [.Packet pk, .Done]) ∨ resp = [.RepeatLast 1])) ∧
    (rx cap wcap t p).1 ≠ none := by
  have shape : ∀ resp, (rx2 cap wcap t p).1 = .ok resp →
      (resp = [.Done] ∨ (∃ pk, resp = [.Packet pk]) ∨
       (∃ pk, resp = [.Packet pk, .Done]) ∨ resp = [.RepeatLast 1]) := by
    intro resp h
    cases t with
    | Complete =>
      left
      simp [rx2, Transfer.isDone] at h
      exact h.symm
    | Tx tx =>
      cases p with
      | ACK a =>
        rw [rx2_fst_tx_ack] at h
        have hresp : (handleAck cap tx a).1 = resp := by
          exact Except.ok.inj h
        have hw1 : tx.meta.window_size = 1 := by
          simpa [transferWindow] using hw
        rcases handleAck_w1_shape cap tx a hw1 with hs | ⟨pk, hs⟩ | ⟨pk, hs⟩ | hs <;>
          rw [hresp] at hs
        · right; right; right; exact hs
        · right; left; exact ⟨pk, hs⟩
        · right; right; left; exact ⟨pk, hs⟩
        · left; exact hs
      | DATA b d =>
        right; right; left
        refine ⟨errPacket .IllegalTFTP, ?_⟩
        simp only [rx2, Transfer.isDone, Bool.false_eq_true, if_false] at h
        split at h <;> simp_all
      | ERROR c m =>
        left
        simp only [rx2, Transfer.isDone, Bool.false_eq_true, if_false] at h
        split at h <;> simp_all
      | RRQ f m o => simp [rx2, Transfer.isDone] at h
      | WRQ f m o => simp [rx2, Transfer.isDone] at h
      | OACK o => simp [rx2, Transfer.isDone] at h
    | Rx rxt =>
      cases p with
      | DATA b d =>
        rw [rx2_fst_rx_data] at h
        have hresp : (handleData wcap rxt b d).1 = resp := Except.ok.inj h
        rcases handleData_shape wcap rxt b d with ⟨pk, hs⟩ | ⟨pk, hs⟩ <;>
          rw [hresp] at hs
        · right; left; exact ⟨pk, hs⟩
        · right; right; left; exact ⟨pk, hs⟩
      | ACK a =>
        right; right; left
        refine ⟨errPacket .IllegalTFTP, ?_⟩
        simp only [rx2, Transfer.isDone, Bool.false_eq_true, if_false] at h
        split at h <;> simp_all
      | ERROR c m =>
        left
        simp only [rx2, Transfer.isDone, Bool.false_eq_true, if_false] at h
        split at h <;> simp_all
      | RRQ f m o => simp [rx2, Transfer.isDone] at h
      | WRQ f m o => simp [rx2, Transfer.isDone] at h
      | OACK o => simp [rx2, Transfer.isDone] at h
  refine ⟨shape, ?_⟩
  rcases h2 : rx2 cap wcap t p with ⟨res, t2⟩
  cases res with
  | error e => simp [rx, h2]
  | ok resp =>
    have hs := shape resp (by rw [h2])
    rcases hs with h | ⟨pk, h⟩ | ⟨pk, h⟩ | h <;> subst h <;> simp [rx, h2]

/-- C10 witness: a concrete default-window transfer receiving a duplicate
ACK; `rx` yields `Repeat`, not a panic. -/
theorem c10_witness :
    (rx chunksReader accWriter (Transfer.Tx ⟨[[1]], 5, false, ⟨512, none, false, 1⟩⟩)
        (.ACK 4)).1 ≠ none :=
  (c10_w1_no_panic chunksReader accWriter
      (Transfer.Tx ⟨[[1]], 5, false, ⟨512, none, false, 1⟩⟩) (.ACK 4) (by decide)).2

/-- The send loop emits at most `fuel` fresh DATA packets beyond its
accumulator and never adds a `RepeatLast` item. -/
theorem sendLoop_counts {R : Type} (cap : Reader R) :
    ∀ (fuel : Nat) (tx : TransferTx R) (v : List ResponseItem),
      countDATA (sendLoop cap fuel tx v).1 ≤ countDATA v + fuel ∧
      countRepeat (sendLoop cap fuel tx v).1 ≤ countRepeat v := by
  intro fuel
  induction fuel with
  | zero =>
    intro tx v
    simp [sendLoop]
  | succ n ih =>
    intro tx v
    rcases hr : readStep cap tx with ⟨tx2, e⟩
    cases e with
    | error p =>
      have hp := readStep_error_eq cap tx tx2 p hr
      subst hp
      constructor <;> simp [sendLoop, hr, countDATA, countRepeat, errPacket]
    | ok p =>
      obtain ⟨b, d, hp⟩ := readStep_ok_data cap tx tx2 p hr
      subst hp
      by_cases hf : tx2.sent_final = true
      · constructor <;>
          simp [sendLoop, hr, hf, countDATA, countRepeat, List.countP_append]
      · have hih := ih tx2 (v ++ [.Packet (.DATA b d)])
        have heq : (sendLoop cap (n + 1) tx v).1 =
            (sendLoop cap n tx2 (v ++ [.Packet (.DATA b d)])).1 := by
          simp [sendLoop, hr, hf]
        constructor
        · rw [heq]
          refine le_trans hih.1 ?_
          simp [countDATA, List.countP_append]
          omega
        · rw [heq]
          refine le_trans hih.2 ?_
          simp [countRepeat, List.countP_append]

/-- The send loop either aborts with exactly `[ERROR(NotDefined), Done]`
(a failing read discards the accumulator) or appends nothing but fresh
DATA packets to its accumulator. -/
theorem sendLoop_shape {R : Type} (cap : Reader R) :
    ∀ (fuel : Nat) (tx : TransferTx R) (v : List ResponseItem),
      (sendLoop cap fuel tx v).1 = [.Packet (errPacket .NotDefined), .Done] ∨
      ∃ suffix, (sendLoop cap fuel tx v).1 = v ++ suffix ∧
        ∀ x ∈ suffix, ∃ b d, x = ResponseItem.Packet (.DATA b d) := by
  intro fuel
  induction fuel with
  | zero =>
    intro tx v
    right
    exact ⟨[], by simp [sendLoop]⟩
  | succ n ih =>
    intro tx v
    rcases hr : readStep cap tx with ⟨tx2, e⟩
    cases e with
    | error p =>
      left
      have hp := readStep_error_eq cap tx tx2 p hr
      subst hp
      simp [sendLoop, hr]
    | ok p =>
      obtain ⟨b, d, hp⟩ := readStep_ok_data cap tx tx2 p hr
      subst hp
      by_cases hf : tx2.sent_final = true
      · right
        refine ⟨[.Packet (.DATA b d)], by simp [sendLoop, hr, hf], ?_⟩
        intro x hx
        simp only [List.mem_singleton] at hx
        exact ⟨b, d, hx⟩
      · have heq : (sendLoop cap (n + 1) tx v).1 =
            (sendLoop cap n tx2 (v ++ [.Packet (.DATA b d)])).1 := by
          simp [sendLoop, hr, hf]
        rcases ih tx2 (v ++ [.Packet (.DATA b d)]) with h | ⟨suffix, hs, hall⟩
        · left
          rw [heq, h]
        · right
          refine ⟨.Packet (.DATA b d) :: suffix, by rw [heq, hs]; simp, ?_⟩
          intro x hx
          rcases List.mem_cons.mp hx with rfl | hx2
          · exact ⟨b, d, rfl⟩
          · exact hall x hx2

/-- With any window size other than 1, a `handle_ack` response is `[Done]`,
or the read-failure response `[ERROR(NotDefined), Done]`, or an optional
`RepeatLast` item followed by nothing but fresh DATA packets. -/
theorem handleAck_not1_shape {R : Type} (cap : Reader R) (tx : TransferTx R) (a : Nat)
    (hw : tx.meta.window_size ≠ 1) :
    (handleAck cap tx a).1 = [.Done] ∨
    (handleAck cap tx a).1 = [.Packet (errPacket .NotDefined), .Done] ∨
    ∃ suffix : List ResponseItem,
      ((handleAck cap tx a).1 = suffix ∨
        (handleAck cap tx a).1 = .RepeatLast (snaDist a tx.expected_block_num) :: suffix) ∧
      ∀ x ∈ suffix, ∃ b d, x = ResponseItem.Packet (.DATA b d) := by
  have h1 : ¬ (tx.meta.window_size = 1 ∧
      (a + 1) % 65536 = tx.expected_block_num % 65536) := fun hc => hw hc.1
  have h2 : ¬ (tx.meta.window_size = 1 ∧
      a % 65536 ≠ tx.expected_block_num % 65536) := fun hc => hw hc.1
  by_cases h3 : tx.sent_final = true
  · left
    simp [handleAck, h1, h2, h3]
  · right
    by_cases hir : (snaLt a tx.expected_block_num &&
        snaGe ((a + tx.meta.window_size) % 65536) tx.expected_block_num) = true
    · have hres : (handleAck cap tx a).1 =
          (sendLoop cap (tx.meta.window_size - snaDist a tx.expected_block_num)
            { tx with meta := { tx.meta with timed_out := false } }
            [.RepeatLast (snaDist a tx.expected_block_num)]).1 := by
        simp [handleAck, h1, h2, h3, hir]
      rcases sendLoop_shape cap (tx.meta.window_size - snaDist a tx.expected_block_num)
          { tx with meta := { tx.meta with timed_out := false } }
          [.RepeatLast (snaDist a tx.expected_block_num)] with hsh | ⟨suffix, hs, hall⟩
      · left
        rw [hres, hsh]
      · right
        exact ⟨suffix, Or.inr (by rw [hres, hs]; simp), hall⟩
    · have hres : (handleAck cap tx a).1 =
          (sendLoop cap (tx.meta.window_size - 0)
            { tx with meta := { tx.meta with timed_out := false } } []).1 := by
        simp [handleAck, h1, h2, h3, hir]
      rcases sendLoop_shape cap (tx.meta.window_size - 0)
          { tx with meta := { tx.meta with timed_out := false } } [] with hsh | ⟨suffix, hs, hall⟩
      · left
        rw [hres, hsh]
      · right
        exact ⟨suffix, Or.inl (by rw [hres, hs]; simp), hall⟩

/-- With any window size other than 1, `handle_ack` never emits an
`ERROR(UnknownID)` packet — that rejection exists only for window size 1. -/
theorem handleAck_not1_no_unknownID {R : Type} (cap : Reader R) (tx : TransferTx R)
    (a : Nat) (hw : tx.meta.window_size ≠ 1) (m : List Nat) :
    ResponseItem.Packet (.ERROR .UnknownID m) ∉ (handleAck cap tx a).1 := by
  intro hmem
  rcases handleAck_not1_shape cap tx a hw with hsh | hsh | ⟨suffix, hs, hall⟩
  · rw [hsh] at hmem
    simp at hmem
  · rw [hsh] at hmem
    simp [errPacket, defaultMsg] at hmem
  · rcases hs with hs | hs <;> rw [hs] at hmem
    · obtain ⟨b, d, hx⟩ := hall _ hmem
      simp at hx
    · rcases List.mem_cons.mp hmem with heq | hmem2
      · simp at heq
      · obtain ⟨b, d, hx⟩ := hall _ hmem2
        simp at hx

/-- C2 counterexample: on a Tx with window 1 and last-emitted block 5, the
ACK for block 4 lies outside the claim's serial range `(5-1, 5]` (forward
distance 1, not 0), yet `handle_ack` answers `[RepeatLast 1]` and not the
claimed `[ERROR(UnknownID), Done]`. -/
theorem c2_counterexample :
    snaDist 4 5 = 1 ∧ ¬ snaDist 4 5 < 1 ∧
    (handleAck chunksReader ⟨[], 5, false, ⟨512, none, false, 1⟩⟩ 4).1 = [.RepeatLast 1] ∧
    (handleAck chunksReader ⟨[], 5, false, ⟨512, none, false, 1⟩⟩ 4).1 ≠
      [.Packet (.ERROR .UnknownID (strB (r"Incorrect block num in ACK"))), .Done] := by
  refine ⟨by decide, by decide, by decide, by decide⟩

/-- C2 (amended): every `handle_ack` response carries at most
`window_size` fresh DATA packets and at most one `RepeatLast`.  With
window size 1, an ACK at serial distance exactly 1 behind the last-emitted
block yields `[RepeatLast 1]`, and an ACK equal to neither that block nor
the one before it yields exactly `[ERROR(UnknownID), Done]`.  With any
other window size the `ERROR(UnknownID)` rejection never occurs: the
response is `[Done]`, or `[ERROR(NotDefined), Done]` when a read fails
during the refill, or an optional `RepeatLast` item followed by nothing
but fresh DATA packets — an out-of-window ACK is not rejected. -/
theorem c2_window_invariant {R : Type} (cap : Reader R) (tx : TransferTx R) (a : Nat) :
    countDATA (handleAck cap tx a).1 ≤ tx.meta.window_size ∧
    countRepeat (handleAck cap tx a).1 ≤ 1 ∧
    (tx.meta.window_size = 1 → (a + 1) % 65536 = tx.expected_block_num % 65536 →
      (handleAck cap tx a).1 = [.RepeatLast 1]) ∧
    (tx.meta.window_size = 1 → a % 65536 ≠ tx.expected_block_num % 65536 →
      (a + 1) % 65536 ≠ tx.expected_block_num % 65536 →
      (handleAck cap tx a).1 =
        [.Packet (.ERROR .UnknownID (strB (r"Incorrect block num in ACK"))), .Done]) ∧
    (tx.meta.window_size ≠ 1 → ∀ m : List Nat,
      ResponseItem.Packet (.ERROR .UnknownID m) ∉ (handleAck cap tx a).1) ∧
    (tx.meta.window_size ≠ 1 →
      (handleAck cap tx a).1 = [.Done] ∨
      (handleAck cap tx a).1 = [.Packet (errPacket .NotDefined), .Done] ∨
      ∃ suffix : List ResponseItem,
        ((handleAck cap tx a).1 = suffix ∨
          (handleAck cap tx a).1 = .RepeatLast (snaDist a tx.expected_block_num) :: suffix) ∧
        ∀ x ∈ suffix, ∃ b d, x = ResponseItem.Packet (.DATA b d)) := by
  have hmain :
      countDATA (handleAck cap tx a).1 ≤ tx.meta.window_size ∧
      countRepeat (handleAck cap tx a).1 ≤ 1 ∧
      (tx.meta.window_size = 1 → (a + 1) % 65536 = tx.expected_block_num % 65536 →
        (handleAck cap tx a).1 = [.RepeatLast 1]) ∧
      (tx.meta.window_size = 1 → a % 65536 ≠ tx.expected_block_num % 65536 →
        (a + 1) % 65536 ≠ tx.expected_block_num % 65536 →
        (handleAck cap tx a).1 =
          [.Packet (.ERROR .UnknownID (strB (r"Incorrect block num in ACK"))), .Done]) := by
    by_cases h1 : tx.meta.window_size = 1 ∧ (a + 1) % 65536 = tx.expected_block_num % 65536
    · have hres : (handleAck cap tx a).1 = [.RepeatLast 1] := by
        simp [handleAck, h1]
      rw [hres]
      exact ⟨by simp [countDATA], by simp [countRepeat],
        fun _ _ => rfl, fun _ _ hne => absurd h1.2 hne⟩
    · by_cases h2 : tx.meta.window_size = 1 ∧ a % 65536 ≠ tx.expected_block_num % 65536
      · have hne1 : ¬ (a + 1) % 65536 = tx.expected_block_num % 65536 :=
          fun hx => h1 ⟨h2.1, hx⟩
        have hres : (handleAck cap tx a).1 =
            [.Packet (.ERROR .UnknownID (strB (r"Incorrect block num in ACK"))), .Done] := by
          simp [handleAck, h1, h2, hne1]
        rw [hres]
        exact ⟨by simp [countDATA], by simp [countRepeat],
          fun hw heq => absurd ⟨hw, heq⟩ h1, fun _ _ _ => rfl⟩
      · by_cases h3 : tx.sent_final = true
        · have hres : (handleAck cap tx a).1 = [.Done] := by
            simp [handleAck, h1, h2, h3]
          rw [hres]
          exact ⟨by simp [countDATA], by simp [countRepeat],
            fun hw heq => absurd ⟨hw, heq⟩ h1, fun hw hne _ => absurd ⟨hw, hne⟩ h2⟩
        · by_cases hir : (snaLt a tx.expected_block_num &&
              snaGe ((a + tx.meta.window_size) % 65536) tx.expected_block_num) = true
          · have hres : (handleAck cap tx a).1 =
                (sendLoop cap (tx.meta.window_size - snaDist a tx.expected_block_num)
                  { tx with meta := { tx.meta with timed_out := false } }
                  [.RepeatLast (snaDist a tx.expected_block_num)]).1 := by
              simp [handleAck, h1, h2, h3, hir]
            have hc := sendLoop_counts cap
              (tx.meta.window_size - snaDist a tx.expected_block_num)
              { tx with meta := { tx.meta with timed_out := false } }
              [.RepeatLast (snaDist a tx.expected_block_num)]
            refine ⟨?_, ?_, fun hw heq => absurd ⟨hw, heq⟩ h1,
              fun hw hne _ => absurd ⟨hw, hne⟩ h2⟩
            · rw [hres]
              refine le_trans hc.1 ?_
              simp [countDATA]
            · rw [hres]
              refine le_trans hc.2 ?_
              simp [countRepeat]
          · have hres : (handleAck cap tx a).1 =
                (sendLoop cap (tx.meta.window_size - 0)
                  { tx with meta := { tx.meta with timed_out := false } } []).1 := by
              simp [handleAck, h1, h2, h3, hir]
            have hc := sendLoop_counts cap (tx.meta.window_size - 0)
              { tx with meta := { tx.meta with timed_out := false } } []
            refine ⟨?_, ?_, fun hw heq => absurd ⟨hw, heq⟩ h1,
              fun hw hne _ => absurd ⟨hw, hne⟩ h2⟩
            · rw [hres]
              refine le_trans hc.1 ?_
              simp [countDATA]
            · rw [hres]
              refine le_trans hc.2 ?_
              simp [countRepeat]
  exact ⟨hmain.1, hmain.2.1, hmain.2.2.1, hmain.2.2.2,
    fun hw m => handleAck_not1_no_unknownID cap tx a hw m,
    fun hw => handleAck_not1_shape cap tx a hw⟩

/-- C2 witness: the window invariant applied to a concrete window-2
transfer (two fresh DATA packets, no `ERROR(UnknownID)`) and to a concrete
window-1 transfer receiving a far-away ACK (the error response). -/
theorem c2_witness :
    countDATA (handleAck chunksReader ⟨[[1], [2]], 0, false, ⟨1, none, false, 2⟩⟩ 5).1 ≤ 2 ∧
    (handleAck chunksReader ⟨[], 5, false, ⟨512, none, false, 1⟩⟩ 3).1 =
      [.Packet (.ERROR .UnknownID (strB (r"Incorrect block num in ACK"))), .Done] ∧
    ResponseItem.Packet (.ERROR .UnknownID (strB (r"Incorrect block num in ACK"))) ∉
      (handleAck chunksReader ⟨[[1], [2]], 0, false, ⟨1, none, false, 2⟩⟩ 5).1 :=
  ⟨(c2_window_invariant chunksReader ⟨[[1], [2]], 0, false, ⟨1, none, false, 2⟩⟩ 5).1,
   (c2_window_invariant chunksReader ⟨[], 5, false, ⟨512, none, false, 1⟩⟩ 3).2.2.2.1
     rfl (by decide) (by decide),
   (c2_window_invariant chunksReader ⟨[[1], [2]], 0, false, ⟨1, none, false, 2⟩⟩ 5).2.2.2.2.1
     (by decide) (strB (r"Incorrect block num in ACK"))⟩

/-- C3 counterexample: on an Rx with window 2 and last in-order block 0,
DATA block 2 is inside the claim's range `(0, 2]` and different from
`last_recv + 1 = 1`; the claim says the server answers `ACK(0)` and writes
nothing, but the code answers `[ERROR(IllegalTFTP, "Data packet lost"),
Done]`. -/
theorem c3_counterexample :
    snaDist 0 2 = 2 ∧ 0 < snaDist 0 2 ∧ snaDist 0 2 ≤ 2 ∧ (2 : Nat) ≠ 0 + 1 ∧
    (handleData accWriter ⟨[], 1, ⟨512, none, false, 2⟩⟩ 2 [7]).1 =
      [.Packet (.ERROR .IllegalTFTP (strB (r"Data packet lost"))), .Done] ∧
    (handleData accWriter ⟨[], 1, ⟨512, none, false, 2⟩⟩ 2 [7]).1 ≠
      [.Packet (.ACK 0)] := by
  refine ⟨by decide, by decide, by decide, by decide, by decide, by decide⟩

/-- C3 (amended): `handle_data` accepts only the exactly-expected block
(`last_recv + 1`), whatever the window size.  Any other block — in or out
of the claimed window — yields exactly `[ERROR(IllegalTFTP, "Data packet
lost"), Done]` and writes nothing.  The expected block is written to the
sink (a write failure yields `[ERROR(NotDefined), Done]`), the expected
block number advances, and an ACK for the block is always emitted — with
`Done` appended exactly when the data is shorter than the blocksize. -/
theorem c3_handle_data {W : Type} (wcap : Writer W) (rxt : TransferRx W) (b : Nat)
    (d : List Nat) :
    (b % 65536 ≠ rxt.expected_block_num % 65536 →
      handleData wcap rxt b d =
        ([.Packet (.ERROR .IllegalTFTP (strB (r"Data packet lost"))), .Done], rxt)) ∧
    (b % 65536 = rxt.expected_block_num % 65536 →
      (wcap.writeAll rxt.fwrite d = none →
        (handleData wcap rxt b d).1 = [.Packet (errPacket .NotDefined), .Done]) ∧
      (∀ w2, wcap.writeAll rxt.fwrite d = some w2 →
        (handleData wcap rxt b d).2.fwrite = w2 ∧
        (handleData wcap rxt b d).2.expected_block_num = (b + 1) % 65536 ∧
        (d.length < rxt.meta.blocksize →
          (handleData wcap rxt b d).1 = [.Packet (.ACK b), .Done]) ∧
        (¬ d.length < rxt.meta.blocksize →
          (handleData wcap rxt b d).1 = [.Packet (.ACK b)]))) := by
  constructor
  · intro h1
    simp [handleData, h1]
  · intro h1
    constructor
    · intro hw
      simp [handleData, h1, hw]
    · intro w2 hw
      by_cases h2 : d.length < rxt.meta.blocksize <;>
        simp [handleData, h1, hw, h2]

/-- C3 witness: the characterization applied to a concrete in-order final
data block. -/
theorem c3_witness :
    (handleData accWriter ⟨[], 1, ⟨512, none, false, 1⟩⟩ 1 [7]).1 =
      [.Packet (.ACK 1), .Done] :=
  (((c3_handle_data accWriter ⟨[], 1, ⟨512, none, false, 1⟩⟩ 1 [7]).2 rfl).2 [7]
      rfl).2.2.1 (by decide)

end Proto

theorem decVal_foldl_acc (xs : List Nat) (a : Nat) :
    xs.foldl (fun a b => a * 10 + (b - 48)) a = a * 10 ^ xs.length + decVal xs := by
  induction xs generalizing a with
  | nil => simp [decVal]
  | cons d xs ih =>
    have h1 := ih (a * 10 + (d - 48))
    have h2 := ih (d - 48)
    simp only [List.foldl_cons, decVal, Nat.zero_mul, Nat.zero_add, List.length_cons] at h1 h2 ⊢
    rw [h1, h2]
    ring

theorem decVal_append_digit (xs : List Nat) (d : Nat) :
    decVal (xs ++ [d]) = decVal xs * 10 + (d - 48) := by
  simp [decVal, List.foldl_append]

theorem decRepAux_digits :
    ∀ fuel n, n < fuel → ∀ b ∈ decRepAux fuel n, 48 ≤ b ∧ b ≤ 57 := by
  intro fuel
  induction fuel with
  | zero => omega
  | succ k ih =>
    intro n hn b hb
    by_cases h10 : n < 10
    · simp [decRepAux, h10] at hb
      omega
    · simp only [decRepAux, h10, if_false] at hb
      rcases List.mem_append.mp hb with h | h
      · exact ih (n / 10) (by omega) b h
      · simp at h
        omega

theorem decRepAux_ne_nil : ∀ fuel n, n < fuel → decRepAux fuel n ≠ [] := by
  intro fuel
  induction fuel with
  | zero => omega
  | succ k _ =>
    intro n hn
    by_cases h10 : n < 10 <;> simp [decRepAux, h10]

theorem decRepAux_val : ∀ fuel n, n < fuel → decVal (decRepAux fuel n) = n := by
  intro fuel
  induction fuel with
  | zero => omega
  | succ k ih =>
    intro n hn
    by_cases h10 : n < 10
    · simp [decRepAux, h10, decVal]
    · simp only [decRepAux, h10, if_false]
      rw [decVal_append_digit, ih (n / 10) (by omega)]
      omega

theorem decRep_digits (n : Nat) : ∀ b ∈ decRep n, 48 ≤ b ∧ b ≤ 57 :=
  decRepAux_digits (n + 1) n (Nat.lt_succ_self n)

theorem decRep_ne_nil (n : Nat) : decRep n ≠ [] :=
  decRepAux_ne_nil (n + 1) n (Nat.lt_succ_self n)

theorem decRep_val (n : Nat) : decVal (decRep n) = n :=
  decRepAux_val (n + 1) n (Nat.lt_succ_self n)

theorem decVal_lt (xs : List Nat) (h : ∀ b ∈ xs, isDigitB b = true) :
    decVal xs < 10 ^ xs.length := by
  induction xs with
  | nil => simp [decVal]
  | cons d xs ih =>
    have hd : 48 ≤ d ∧ d ≤ 57 := by
      have := h d (List.mem_cons_self d xs)
      simp [isDigitB] at this
      omega
    have hxs := ih (fun b hb => h b (List.mem_cons_of_mem d hb))
    have hval : decVal (d :: xs) = (d - 48) * 10 ^ xs.length + decVal xs := by
      simp only [decVal, List.foldl_cons]
      have := decVal_foldl_acc xs (0 * 10 + (d - 48))
      simpa [decVal] using this
    rw [hval]
    have h9 : d - 48 ≤ 9 := by omega
    have hk : 0 < 10 ^ xs.length := Nat.pos_pow_of_pos _ (by omega)
    calc (d - 48) * 10 ^ xs.length + decVal xs
        ≤ 9 * 10 ^ xs.length + decVal xs := by
          exact Nat.add_le_add_right (Nat.mul_le_mul_right _ h9) _
      _ < 9 * 10 ^ xs.length + 10 ^ xs.length := by omega
      _ = 10 ^ (xs.length + 1) := by ring

theorem decRepAux_len_le :
    ∀ fuel n k, n < fuel → n < 10 ^ k → 1 ≤ k → (decRepAux fuel n).length ≤ k := by
  intro fuel
  induction fuel with
  | zero => omega
  | succ m ih =>
    intro n k hn hk h1
    by_cases h10 : n < 10
    · simp [decRepAux, h10]
      omega
    · simp only [decRepAux, h10, if_false, List.length_append, List.length_cons,
        List.length_nil]

      have hk2 : 2 ≤ k := by
        by_contra hcon
        have hk1 : k = 1 := by omega
        rw [hk1] at hk
        simp at hk
        omega
      have hpow : 10 ^ k = 10 ^ (k - 1) * 10 := by
        conv_lhs => rw [show k = (k - 1) + 1 by omega]
        rw [pow_succ]
      have hdiv : n / 10 < 10 ^ (k - 1) := by
        rw [Nat.div_lt_iff_lt_mul (by omega : 0 < 10)]
        rw [← hpow]
        exact hk
      have := ih (n / 10) (k - 1) (by omega) hdiv (by omega)
      omega

theorem decRep_len_min (ds : List Nat) (hne : ds ≠ []) (hd : ∀ b ∈ ds, isDigitB b = true) :
    (decRep (decVal ds)).length ≤ ds.length := by
  have hlen : 1 ≤ ds.length := by
    cases ds with
    | nil => exact absurd rfl hne
    | cons a l => simp
  exact decRepAux_len_le (decVal ds + 1) (decVal ds) ds.length (Nat.lt_succ_self _)
    (decVal_lt ds hd) hlen

theorem parseCore_decRep (n : Nat) : parseCore (decRep n) = decRep n := by
  have hd := decRep_digits n
  have hne := decRep_ne_nil n
  rcases hdr : decRep n with _ | ⟨b, rest⟩
  · exact absurd hdr hne
  · have hb : 48 ≤ b ∧ b ≤ 57 := by
      have := hd b
      rw [hdr] at this
      exact this (List.mem_cons_self b rest)
    have hb43 : ¬ b = 43 := by omega
    simp [parseCore, hb43]

theorem parseUBound_decRep (maxv n : Nat) :
    parseUBound maxv (decRep n) = if n ≤ maxv then some n else none := by
  have hd := decRep_digits n
  have hne := decRep_ne_nil n
  have hval := decRep_val n
  have hdig : (decRep n).all (fun x => isDigitB x) = true := by
    rw [List.all_eq_true]
    intro x hx
    have := hd x hx
    simp [isDigitB]
    omega
  unfold parseUBound
  rw [parseCore_decRep, hval]
  simp [hne, hdig]

theorem lowerByte_idem (b : Nat) : lowerByte (lowerByte b) = lowerByte b := by
  unfold lowerByte
  split_ifs <;> omega

theorem eqIgnoreCase_map_lower (a b : List Nat) :
    eqIgnoreCase (a.map lowerByte) b = eqIgnoreCase a b := by
  unfold eqIgnoreCase
  rw [List.map_map]
  have hcomp : lowerByte ∘ lowerByte = lowerByte := funext lowerByte_idem
  rw [hcomp]

namespace Codec

/-- C9 counterexample: a DATA packet with a maximal 65464-byte payload
encodes to 65468 bytes, which exceeds `MAX_PACKET_SIZE = 65466` — the
constant is two bytes (the block-number field) short of a sufficient
buffer for the largest DATA packet. -/
theorem c9_counterexample :
    (Packet.writeBytes (.DATA 1 (List.replicate MAX_BLOCKSIZE 0))).length =
      MAX_PACKET_SIZE + 2 ∧
    MAX_PACKET_SIZE + 2 > MAX_PACKET_SIZE := by
  constructor
  · simp only [Packet.writeBytes, u16be, List.length_append, List.length_cons,
      List.length_nil, List.length_replicate, MAX_PACKET_SIZE, MAX_BLOCKSIZE]
  · omega

/-- C9 (amended): `MAX_PACKET_SIZE` is `MAX_BLOCKSIZE + 2 = 65466` as the
source defines, but a DATA packet encodes to `payload + 4` bytes, so the
buffer bound holds only for payloads of at most `MAX_BLOCKSIZE - 2 = 65462`
bytes; ACK packets encode to 4 bytes. -/
theorem c9_max_packet_size :
    MAX_PACKET_SIZE = 65466 ∧ MAX_BLOCKSIZE = 65464 ∧
    (∀ b d, (Packet.writeBytes (.DATA b d)).length = d.length + 4) ∧
    (∀ b d, d.length ≤ MAX_BLOCKSIZE - 2 →
      (Packet.writeBytes (.DATA b d)).length ≤ MAX_PACKET_SIZE) ∧
    (∀ b, (Packet.writeBytes (.ACK b)).length = 4) := by
    refine ⟨rfl, rfl, ?_, ?_, ?_⟩
    · intro b d
      simp only [Packet.writeBytes, u16be, List.length_append, List.length_cons,
        List.length_nil]
      omega
    · intro b d h
      simp only [Packet.writeBytes, u16be, List.length_append, List.length_cons,
        List.length_nil]
      simp only [MAX_BLOCKSIZE, MAX_PACKET_SIZE] at h ⊢
      omega
    · intro b
      simp [Packet.writeBytes, u16be]

/-- C9 witness: the DATA length bound applied at a small concrete packet. -/
theorem c9_witness :
    (Packet.writeBytes (.DATA 1 [9])).length ≤ MAX_PACKET_SIZE :=
  c9_max_packet_size.2.2.2.1 1 [9] (by decide)

/-- C8 counterexample: a `(windowsize, 1)` pair does not parse to any
option — `options.rs` has no `windowsize` name (and no `WindowSize`
variant); the pair is silently dropped. -/
theorem c8_counterexample :
    TftpOption.tryFrom (strB (r"windowsize")) (strB (r"1")) = none := by
  decide

/-- C8 (amended): option parsing recognizes exactly the three
case-insensitive names `blksize`, `timeout` and `tsize` — `windowsize` is
not among them — silently ignoring every other name; `blksize v` parses
iff `8 ≤ v ≤ 65464` (and is dropped above 65464 or above `u16`);
`timeout` accepts any `u8` value and `tsize` any `u64` value. -/
theorem c8_option_parsing :
    (∀ v : Nat, v ≤ 65535 →
      TftpOption.tryFrom (strB (r"blksize")) (decRep v) =
        if 8 ≤ v ∧ v ≤ 65464 then some (.Blocksize v) else none) ∧
    (∀ v : Nat, 65465 ≤ v → TftpOption.tryFrom (strB (r"blksize")) (decRep v) = none) ∧
    (∀ v : Nat, v ≤ 255 →
      TftpOption.tryFrom (strB (r"timeout")) (decRep v) = some (.Timeout v)) ∧
    (∀ v : Nat, v < 2 ^ 64 →
      TftpOption.tryFrom (strB (r"tsize")) (decRep v) = some (.TransferSize v)) ∧
    (∀ name value : List Nat,
      eqIgnoreCase name (strB (r"blksize")) = false →
      eqIgnoreCase name (strB (r"timeout")) = false →
      eqIgnoreCase name (strB (r"tsize")) = false →
      TftpOption.tryFrom name value = none) ∧
    (∀ name value : List Nat,
      TftpOption.tryFrom (name.map lowerByte) value = TftpOption.tryFrom name value) := by
  have e11 : eqIgnoreCase (strB (r"blksize")) (strB (r"blksize")) = true := by decide
  have e22 : eqIgnoreCase (strB (r"timeout")) (strB (r"timeout")) = true := by decide
  have e21 : eqIgnoreCase (strB (r"timeout")) (strB (r"blksize")) = false := by decide
  have e33 : eqIgnoreCase (strB (r"tsize")) (strB (r"tsize")) = true := by decide
  have e31 : eqIgnoreCase (strB (r"tsize")) (strB (r"blksize")) = false := by decide
  have e32 : eqIgnoreCase (strB (r"tsize")) (strB (r"timeout")) = false := by decide
  refine ⟨?_, ?_, ?_, ?_, ?_, ?_⟩
  · intro v hv
    simp [TftpOption.tryFrom, parseUBound_decRep, hv, MAX_BLOCKSIZE, e11]
  · intro v hv
    by_cases hv2 : v ≤ 65535
    · have hnb : ¬ (8 ≤ v ∧ v ≤ MAX_BLOCKSIZE) := by
        simp only [MAX_BLOCKSIZE]
        omega
      simp [TftpOption.tryFrom, parseUBound_decRep, hv2, e11, hnb]
    · simp [TftpOption.tryFrom, parseUBound_decRep, hv2, e11]
  · intro v hv
    simp [TftpOption.tryFrom, parseUBound_decRep, hv, e21, e22]
  · intro v hv
    have hv2 : v ≤ 18446744073709551615 := by omega
    simp [TftpOption.tryFrom, parseUBound_decRep, hv2, e31, e32, e33]
  · intro name value h1 h2 h3
    simp [TftpOption.tryFrom, h1, h2, h3]
  · intro name value
    simp [TftpOption.tryFrom, eqIgnoreCase_map_lower]

/-- C8 witness: the parsing characterization applied at concrete
name/value pairs. -/
theorem c8_witness :
    TftpOption.tryFrom (strB (r"blksize")) (decRep 512) = some (.Blocksize 512) ∧
    TftpOption.tryFrom (strB (r"blksize")) (decRep 7) = none ∧
    TftpOption.tryFrom (strB (r"timeout")) (decRep 3) = some (.Timeout 3) ∧
    TftpOption.tryFrom (strB (r"tsize")) (decRep 9) = some (.TransferSize 9) := by
  have h := c8_option_parsing
  refine ⟨?_, ?_, h.2.2.1 3 (by decide), h.2.2.2.1 9 (by decide)⟩
  · have h1 := h.1 512 (by decide)
    simpa using h1
  · have h1 := h.1 7 (by decide)
    simpa using h1

end Codec

theorem ascii_validUTF8 : ∀ s : List Nat, (∀ b ∈ s, b ≤ 127) → validUTF8 s = true := by
  intro s
  induction s with
  | nil => simp [validUTF8]
  | cons b rest ih =>
    intro h
    have hb : b ≤ 127 := h b (List.mem_cons_self b rest)
    have hr := ih (fun x hx => h x (List.mem_cons_of_mem _ hx))
    unfold validUTF8
    simp [hb, hr]

theorem eqIgnoreCase_length (a b : List Nat) (h : eqIgnoreCase a b = true) :
    a.length = b.length := by
  unfold eqIgnoreCase at h
  have heq : a.map lowerByte = b.map lowerByte := by
    exact eq_of_beq h
  simpa using congrArg List.length heq

theorem parseUBound_le (maxv : Nat) (bs : List Nat) (v : Nat)
    (h : parseUBound maxv bs = some v) : v ≤ maxv := by
  unfold parseUBound at h
  split_ifs at h with h1 h2
  have := Option.some.inj h
  omega

theorem parseUBound_some_len (maxv : Nat) (bs : List Nat) (v : Nat)
    (h : parseUBound maxv bs = some v) : (decRep v).length ≤ bs.length := by
  unfold parseUBound at h
  split_ifs at h with h1 h2
  · have hv : v = decVal (parseCore bs) := (Option.some.inj h).symm
    have hdig : ∀ x ∈ parseCore bs, isDigitB x = true := List.all_eq_true.mp h1.2
    have hmin := decRep_len_min (parseCore bs) h1.1 hdig
    have hcore : (parseCore bs).length ≤ bs.length := by
      rcases bs with _ | ⟨b, rest⟩
      · simp [parseCore]
      · by_cases hb : b = 43 <;> simp [parseCore, hb]
    rw [hv]
    omega

theorem strWF_decRep (n : Nat) : Codec.strWF (decRep n) := by
  constructor
  · refine ascii_validUTF8 _ (fun b hb => ?_)
    have := decRep_digits n b hb
    omega
  · intro hmem
    have := decRep_digits n 0 hmem
    omega

namespace Codec

theorem splitAtZero_append (s t : List Nat) (h : ¬ 0 ∈ s) :
    splitAtZero (s ++ 0 :: t) = some (s, t) := by
  induction s with
  | nil => simp [splitAtZero]
  | cons b rest ih =>
    simp only [List.mem_cons, not_or] at h
    have hb : ¬ b = 0 := fun hbb => h.1 hbb.symm
    simp [splitAtZero, hb, ih h.2]

theorem splitAtZero_sound :
    ∀ (bs s t : List Nat), splitAtZero bs = some (s, t) → bs = s ++ 0 :: t ∧ ¬ 0 ∈ s := by
  intro bs
  induction bs with
  | nil =>
    intro s t h
    simp [splitAtZero] at h
  | cons b rest ih =>
    intro s t h
    by_cases hb : b = 0
    · subst hb
      have h2 : s = [] ∧ t = rest := by
        have h3 : some (([] : List Nat), rest) = some (s, t) := by
          simpa [splitAtZero] using h
        injection h3 with h4
        injection h4 with h5 h6
        exact ⟨h5.symm, h6.symm⟩
      obtain ⟨rfl, rfl⟩ := h2
      simp
    · have h2 : (splitAtZero rest).map (fun p => (b :: p.1, p.2)) = some (s, t) := by
        simpa [splitAtZero, hb] using h
      rcases hr : splitAtZero rest with _ | ⟨s2, t2⟩ <;> rw [hr] at h2
      · simp at h2
      · simp only [Option.map_some'] at h2
        injection h2 with h3
        injection h3 with h4 h5
        obtain ⟨hrest, hmem⟩ := ih s2 t2 hr
        rw [← h4, ← h5]
        constructor
        · simp [hrest]
        · simp only [List.mem_cons, not_or]
          exact ⟨fun h0 => hb h0.symm, hmem⟩

theorem stringsNext_append (s t : List Nat) (h : strWF s) :
    stringsNext (s ++ 0 :: t) = (some s, t) := by
  unfold stringsNext
  rw [splitAtZero_append s t h.2]
  simp [h.1]

theorem stringsNext_some (bs s t : List Nat) (h : stringsNext bs = (some s, t)) :
    bs = s ++ 0 :: t ∧ strWF s := by
  unfold stringsNext at h
  rcases hr : splitAtZero bs with _ | ⟨s2, t2⟩ <;> rw [hr] at h
  · simp at h
  · obtain ⟨hbs, hmem⟩ := splitAtZero_sound bs s2 t2 hr
    by_cases hv : validUTF8 s2 = true
    · simp only [hv, if_true, Prod.mk.injEq, Option.some.injEq] at h
      obtain ⟨hs, ht⟩ := h
      subst hs
      subst ht
      exact ⟨hbs, hv, hmem⟩
    · simp [hv] at h

theorem writeTo_decomp (o : TftpOption) :
    TftpOption.writeTo o = optName o ++ 0 :: (decRep (optVal o) ++ [0]) := by
  cases o <;> simp [TftpOption.writeTo, optName, optVal]

theorem writeTo_length (o : TftpOption) :
    (TftpOption.writeTo o).length = (optName o).length + (decRep (optVal o)).length + 2 := by
  rw [writeTo_decomp]
  simp
  omega

theorem strWF_optName (o : TftpOption) : strWF (optName o) := by
  cases o <;> simp only [optName] <;> exact ⟨by decide, by decide⟩

theorem tryFrom_canonical (o : TftpOption) (h : optWF o) :
    TftpOption.tryFrom (optName o) (decRep (optVal o)) = some o := by
  cases o with
  | Blocksize v =>
    have hb : v ≤ 65535 := by
      have h2 : v ≤ MAX_BLOCKSIZE := h.2
      simp [MAX_BLOCKSIZE] at h2
      omega
    have e1 : eqIgnoreCase (strB (r"blksize")) (strB (r"blksize")) = true := by decide
    simp [TftpOption.tryFrom, optName, optVal, parseUBound_decRep, hb, e1, h.1, h.2]
  | Timeout v =>
    have hb : v ≤ 255 := by
      have h2 : v < 256 := h
      omega
    have e1 : eqIgnoreCase (strB (r"timeout")) (strB (r"blksize")) = false := by decide
    have e2 : eqIgnoreCase (strB (r"timeout")) (strB (r"timeout")) = true := by decide
    simp [TftpOption.tryFrom, optName, optVal, parseUBound_decRep, hb, e1, e2]
  | TransferSize v =>
    have hb : v ≤ 18446744073709551615 := by
      have h2 : v < 2 ^ 64 := h
      omega
    have e1 : eqIgnoreCase (strB (r"tsize")) (strB (r"blksize")) = false := by decide
    have e2 : eqIgnoreCase (strB (r"tsize")) (strB (r"timeout")) = false := by decide
    have e3 : eqIgnoreCase (strB (r"tsize")) (strB (r"tsize")) = true := by decide
    simp [TftpOption.tryFrom, optName, optVal, parseUBound_decRep, hb, e1, e2, e3]

theorem tryFrom_some_wf (n v : List Nat) (o : TftpOption)
    (h : TftpOption.tryFrom n v = some o) : optWF o := by
  unfold TftpOption.tryFrom at h
  split_ifs at h with h1 h2 h3
  · rcases hp : parseUBound 65535 v with _ | val <;> rw [hp] at h
    · simp at h
    · simp at h
      obtain ⟨hb, ho⟩ := h
      rw [← ho]
      exact hb
  · rcases hp : parseUBound 255 v with _ | val <;> rw [hp] at h <;> simp at h
    rw [← h]
    have := parseUBound_le 255 v val hp
    show val < 256
    omega
  · rcases hp : parseUBound (2 ^ 64 - 1) v with _ | val <;> rw [hp] at h <;> simp at h
    rw [← h]
    have := parseUBound_le (2 ^ 64 - 1) v val hp
    show val < 2 ^ 64
    omega

theorem tryFrom_some_len (n v : List Nat) (o : TftpOption)
    (h : TftpOption.tryFrom n v = some o) :
    (TftpOption.writeTo o).length ≤ n.length + v.length + 2 := by
  unfold TftpOption.tryFrom at h
  split_ifs at h with h1 h2 h3
  · have hn : n.length = 7 := by
      have := eqIgnoreCase_length n _ h1
      simpa using this
    rcases hp : parseUBound 65535 v with _ | val <;> rw [hp] at h
    · simp at h
    · simp at h
      obtain ⟨hb, ho⟩ := h
      have hvl := parseUBound_some_len 65535 v val hp
      rw [← ho, writeTo_length]
      have hc : (optName (TftpOption.Blocksize val)).length = 7 := by
        simp only [optName]
        decide
      rw [hc]
      simp [optVal]
      omega
  · have hn : n.length = 7 := by
      have := eqIgnoreCase_length n _ h2
      simpa using this
    rcases hp : parseUBound 255 v with _ | val <;> rw [hp] at h <;> simp at h
    have hvl := parseUBound_some_len 255 v val hp
    rw [← h, writeTo_length]
    have hc : (optName (TftpOption.Timeout val)).length = 7 := by
      simp only [optName]
      decide
    rw [hc]
    simp [optVal]
    omega
  · have hn : n.length = 5 := by
      have := eqIgnoreCase_length n _ h3
      simpa using this
    rcases hp : parseUBound (2 ^ 64 - 1) v with _ | val <;> rw [hp] at h <;> simp at h
    have hvl := parseUBound_some_len (2 ^ 64 - 1) v val hp
    rw [← h, writeTo_length]
    have hc : (optName (TftpOption.TransferSize val)).length = 5 := by
      simp only [optName]
      decide
    rw [hc]
    simp [optVal]
    omega

theorem readOptionsAux_wf :
    ∀ (fuel : Nat) (bs : List Nat) (o : TftpOption), o ∈ readOptionsAux fuel bs → optWF o := by
  intro fuel
  induction fuel with
  | zero =>
    intro bs o ho
    simp [readOptionsAux] at ho
  | succ k ih =>
    intro bs o ho
    rcases hp1 : stringsNext bs with ⟨o1, r1⟩
    rcases o1 with _ | name
    · simp [readOptionsAux, hp1] at ho
    · rcases hp2 : stringsNext r1 with ⟨o2, r2⟩
      rcases o2 with _ | value
      · simp [readOptionsAux, hp1, hp2] at ho
      · rcases ht : TftpOption.tryFrom name value with _ | oo
        · simp only [readOptionsAux, hp1, hp2, ht] at ho
          exact ih r2 o ho
        · simp only [readOptionsAux, hp1, hp2, ht, List.mem_cons] at ho
          rcases ho with rfl | ho
          · exact tryFrom_some_wf name value o ht
          · exact ih r2 o ho

theorem readOptionsAux_len :
    ∀ (fuel : Nat) (bs : List Nat),
      (((readOptionsAux fuel bs).map TftpOption.writeTo).flatten).length ≤ bs.length := by
  intro fuel
  induction fuel with
  | zero =>
    intro bs
    simp [readOptionsAux]
  | succ k ih =>
    intro bs
    rcases hp1 : stringsNext bs with ⟨o1, r1⟩
    rcases o1 with _ | name
    · simp [readOptionsAux, hp1]
    · rcases hp2 : stringsNext r1 with ⟨o2, r2⟩
      rcases o2 with _ | value
      · simp [readOptionsAux, hp1, hp2]
      · obtain ⟨hbs, _⟩ := stringsNext_some bs name r1 hp1
        obtain ⟨hr1, _⟩ := stringsNext_some r1 value r2 hp2
        have hlbs := congrArg List.length hbs
        have hlr1 := congrArg List.length hr1
        simp at hlbs hlr1
        rcases ht : TftpOption.tryFrom name value with _ | oo
        · simp only [readOptionsAux, hp1, hp2, ht]
          have := ih r2
          omega
        · simp only [readOptionsAux, hp1, hp2, ht, List.map_cons, List.flatten_cons,
            List.length_append]
          have := ih r2
          have hwl := tryFrom_some_len name value oo ht
          omega

theorem readOptionsAux_encode :
    ∀ (opts : List TftpOption) (fuel : Nat),
      (∀ o ∈ opts, optWF o) →
      ((opts.map TftpOption.writeTo).flatten).length < fuel →
      readOptionsAux fuel ((opts.map TftpOption.writeTo).flatten) = opts := by
  intro opts
  induction opts with
  | nil =>
    intro fuel _ hf
    obtain ⟨k, rfl⟩ : ∃ k, fuel = k + 1 := ⟨fuel - 1, by omega⟩
    simp [readOptionsAux, stringsNext, splitAtZero]
  | cons o os ih =>
    intro fuel hwf hf
    obtain ⟨k, rfl⟩ : ∃ k, fuel = k + 1 := ⟨fuel - 1, by omega⟩
    have hwfo : optWF o := hwf o (List.mem_cons_self o os)
    have hwfos : ∀ x ∈ os, optWF x := fun x hx => hwf x (List.mem_cons_of_mem o hx)
    simp only [List.map_cons, List.flatten_cons] at hf ⊢
    have hsplit : TftpOption.writeTo o ++ (os.map TftpOption.writeTo).flatten =
        optName o ++ 0 :: (decRep (optVal o) ++ 0 :: (os.map TftpOption.writeTo).flatten) := by
      rw [writeTo_decomp]
      simp
    rw [hsplit]
    have hs1 := stringsNext_append (optName o)
      (decRep (optVal o) ++ 0 :: (os.map TftpOption.writeTo).flatten) (strWF_optName o)
    have hs2 := stringsNext_append (decRep (optVal o))
      ((os.map TftpOption.writeTo).flatten) (strWF_decRep (optVal o))
    have hlen : ((os.map TftpOption.writeTo).flatten).length < k := by
      have hw := writeTo_length o
      have happ : (TftpOption.writeTo o ++ (os.map TftpOption.writeTo).flatten).length =
          (TftpOption.writeTo o).length + ((os.map TftpOption.writeTo).flatten).length := by
        simp
      omega
    simp only [readOptionsAux, hs1, hs2, tryFrom_canonical o hwfo]
    rw [ih k hwfos hlen]

theorem readU16_u16be (b : Nat) (t : List Nat) (h : b < 65536) :
    readU16 (u16be b ++ t) = some (b, t) := by
  have hval : b / 256 % 256 * 256 + b % 256 = b := by omega
  simp [u16be, readU16, hval]

theorem readU16_op (k : Nat) (t : List Nat) : readU16 (0 :: k :: t) = some (k, t) := by
  simp [readU16]

theorem modeFrom_modeBytes (m : TransferMode) : modeFrom (modeBytes m) = some m := by
  cases m <;> decide

theorem strWF_modeBytes (m : TransferMode) : strWF (modeBytes m) := by
  cases m <;> simp only [modeBytes] <;> exact ⟨by decide, by decide⟩

theorem modeFrom_length (s : List Nat) (m : TransferMode) (h : modeFrom s = some m) :
    (modeBytes m).length = s.length := by
  unfold modeFrom at h
  split_ifs at h with h1 h2 h3
  · obtain rfl : TransferMode.Octet = m := Option.some.inj h
    have hs := eqIgnoreCase_length s _ h1
    have hc : (strB (r"octet")).length = 5 := by decide
    rw [hc] at hs
    have hm : (modeBytes TransferMode.Octet).length = 5 := by decide
    omega
  · obtain rfl : TransferMode.Netascii = m := Option.some.inj h
    have hs := eqIgnoreCase_length s _ h2
    have hc : (strB (r"netascii")).length = 8 := by decide
    rw [hc] at hs
    have hm : (modeBytes TransferMode.Netascii).length = 8 := by decide
    omega
  · obtain rfl : TransferMode.Mail = m := Option.some.inj h
    have hs := eqIgnoreCase_length s _ h3
    have hc : (strB (r"mail")).length = 4 := by decide
    rw [hc] at hs
    have hm : (modeBytes TransferMode.Mail).length = 4 := by decide
    omega

theorem ErrorCode_fromNat_toNat (c : ErrorCode) : ErrorCode.fromNat c.toNat = some c := by
  cases c <;> rfl

theorem ErrorCode_toNat_lt (c : ErrorCode) : c.toNat < 65536 := by
  cases c <;> decide

theorem readReq_encode (isW : Bool) (f : List Nat) (m : TransferMode)
    (o : List TftpOption) (hf : strWF f) (ho : ∀ x ∈ o, optWF x)
    (hlen : (f ++ 0 :: (modeBytes m ++ 0 :: (o.map TftpOption.writeTo).flatten)).length ≤ 512) :
    readReq isW (f ++ 0 :: (modeBytes m ++ 0 :: (o.map TftpOption.writeTo).flatten)) =
      some (if isW then .WRQ f m o else .RRQ f m o) := by
  have hnotgt : ¬ (f ++ 0 :: (modeBytes m ++ 0 :: (o.map TftpOption.writeTo).flatten)).length
      > 512 := by omega
  have hs1 := stringsNext_append f (modeBytes m ++ 0 :: (o.map TftpOption.writeTo).flatten) hf
  have hs2 := stringsNext_append (modeBytes m) ((o.map TftpOption.writeTo).flatten)
    (strWF_modeBytes m)
  have hro : readOptions ((o.map TftpOption.writeTo).flatten) = o := by
    unfold readOptions
    exact readOptionsAux_encode o _ ho (Nat.lt_succ_self _)
  simp only [readReq, hnotgt, if_false, hs1, hs2, modeFrom_modeBytes, hro]

theorem read_writeBytes_of_wf :
    ∀ P : Packet, P.wf → Packet.read (Packet.writeBytes P) = some P := by
  intro P hwf
  cases P with
  | RRQ f m o =>
    obtain ⟨hf, ho, hlen⟩ := hwf
    have hb : Packet.writeBytes (.RRQ f m o) =
        0 :: 1 :: (f ++ 0 :: (modeBytes m ++ 0 :: (o.map TftpOption.writeTo).flatten)) := by
      simp [Packet.writeBytes, u16be]
    have hblen :
        (f ++ 0 :: (modeBytes m ++ 0 :: (o.map TftpOption.writeTo).flatten)).length ≤ 512 := by
      rw [hb] at hlen
      simp only [List.length_cons] at hlen
      omega
    rw [hb]
    simp only [Packet.read, readU16_op]
    exact readReq_encode false f m o hf ho hblen
  | WRQ f m o =>
    obtain ⟨hf, ho, hlen⟩ := hwf
    have hb : Packet.writeBytes (.WRQ f m o) =
        0 :: 2 :: (f ++ 0 :: (modeBytes m ++ 0 :: (o.map TftpOption.writeTo).flatten)) := by
      simp [Packet.writeBytes, u16be]
    have hblen :
        (f ++ 0 :: (modeBytes m ++ 0 :: (o.map TftpOption.writeTo).flatten)).length ≤ 512 := by
      rw [hb] at hlen
      simp only [List.length_cons] at hlen
      omega
    rw [hb]
    simp only [Packet.read, readU16_op]
    exact readReq_encode true f m o hf ho hblen
  | DATA b d =>
    have hb : Packet.writeBytes (.DATA b d) = 0 :: 3 :: (u16be b ++ d) := by
      simp [Packet.writeBytes, u16be]
    rw [hb]
    simp only [Packet.read, readU16_op]
    rw [readU16_u16be b d hwf]
  | ACK b =>
    have hb : Packet.writeBytes (.ACK b) = 0 :: 4 :: (u16be b ++ []) := by
      simp [Packet.writeBytes, u16be]
    rw [hb]
    simp only [Packet.read, readU16_op, List.append_nil]
    have hr := readU16_u16be b [] hwf
    rw [List.append_nil] at hr
    rw [hr]
  | ERROR c msg =>
    have hb : Packet.writeBytes (.ERROR c msg) =
        0 :: 5 :: (u16be c.toNat ++ (msg ++ 0 :: [])) := by
      simp [Packet.writeBytes, u16be]
    rw [hb]
    simp only [Packet.read, readU16_op]
    rw [readU16_u16be c.toNat (msg ++ 0 :: []) (ErrorCode_toNat_lt c)]
    simp [ErrorCode_fromNat_toNat, stringsNext_append msg [] hwf]
  | OACK o =>
    have hb : Packet.writeBytes (.OACK o) = 0 :: 6 :: (o.map TftpOption.writeTo).flatten := by
      simp [Packet.writeBytes, u16be]
    rw [hb]
    simp only [Packet.read, readU16_op]
    unfold readOptions
    rw [readOptionsAux_encode o _ hwf (Nat.lt_succ_self _)]

theorem readU16_inv (B : List Nat) (op : Nat) (rest : List Nat)
    (h : readU16 B = some (op, rest)) :
    ∃ a b, B = a :: b :: rest ∧ op = a * 256 + b := by
  rcases B with _ | ⟨a, B1⟩
  · simp [readU16] at h
  rcases B1 with _ | ⟨b2, B2⟩
  · simp [readU16] at h
  · simp only [readU16, Option.some.injEq, Prod.mk.injEq] at h
    exact ⟨a, b2, by rw [h.2], h.1.symm⟩

theorem readReq_wf (isW : Bool) (body : List Nat) (P : Packet)
    (h : readReq isW body = some P) : P.wf := by
  unfold readReq at h
  split_ifs at h with hlen hW
  · rcases hs1 : stringsNext body with ⟨o1, r1⟩
    simp only [hs1] at h
    rcases o1 with _ | f
    · exact Option.noConfusion h
    rcases hs2 : stringsNext r1 with ⟨o2, r2⟩
    simp only [hs2] at h
    rcases o2 with _ | mstr
    · exact Option.noConfusion h
    rcases hm : modeFrom mstr with _ | mode
    · simp only [hm] at h
      exact Option.noConfusion h
    simp only [hm, Option.some.injEq] at h
    obtain ⟨hbody, hfWF⟩ := stringsNext_some body f r1 hs1
    obtain ⟨hr1, hmWF⟩ := stringsNext_some r1 mstr r2 hs2
    have hoWF : ∀ x ∈ readOptions r2, optWF x := fun x hx => readOptionsAux_wf _ r2 x hx
    have hmlen := modeFrom_length mstr mode hm
    have holen : (((readOptions r2).map TftpOption.writeTo).flatten).length ≤ r2.length :=
      readOptionsAux_len _ r2
    have hlb := congrArg List.length hbody
    have hlr := congrArg List.length hr1
    simp only [List.length_append, List.length_cons] at hlb hlr
    rw [← h]
    refine ⟨hfWF, hoWF, ?_⟩
    simp only [Packet.writeBytes, u16be, List.length_append, List.length_cons,
      List.length_nil]
    omega
  · rcases hs1 : stringsNext body with ⟨o1, r1⟩
    simp only [hs1] at h
    rcases o1 with _ | f
    · exact Option.noConfusion h
    rcases hs2 : stringsNext r1 with ⟨o2, r2⟩
    simp only [hs2] at h
    rcases o2 with _ | mstr
    · exact Option.noConfusion h
    rcases hm : modeFrom mstr with _ | mode
    · simp only [hm] at h
      exact Option.noConfusion h
    simp only [hm, Option.some.injEq] at h
    obtain ⟨hbody, hfWF⟩ := stringsNext_some body f r1 hs1
    obtain ⟨hr1, hmWF⟩ := stringsNext_some r1 mstr r2 hs2
    have hoWF : ∀ x ∈ readOptions r2, optWF x := fun x hx => readOptionsAux_wf _ r2 x hx
    have hmlen := modeFrom_length mstr mode hm
    have holen : (((readOptions r2).map TftpOption.writeTo).flatten).length ≤ r2.length :=
      readOptionsAux_len _ r2
    have hlb := congrArg List.length hbody
    have hlr := congrArg List.length hr1
    simp only [List.length_append, List.length_cons] at hlb hlr
    rw [← h]
    refine ⟨hfWF, hoWF, ?_⟩
    simp only [Packet.writeBytes, u16be, List.length_append, List.length_cons,
      List.length_nil]
    omega

theorem read_wf (B : List Nat) (P : Packet) (hB : ∀ b ∈ B, b < 256)
    (h : Packet.read B = some P) : P.wf := by
  unfold Packet.read at h
  rcases hr : readU16 B with _ | ⟨op, rest⟩
  · simp only [hr] at h
    exact Option.noConfusion h
  obtain ⟨a, b, hBeq, hop⟩ := readU16_inv B op rest hr
  have hBrest : ∀ x ∈ rest, x < 256 := by
    intro x hx
    refine hB x ?_
    rw [hBeq]
    simp [hx]
  simp only [hr] at h
  split at h
  · exact readReq_wf false rest P h
  · exact readReq_wf true rest P h
  · rcases hr2 : readU16 rest with _ | ⟨bn, d⟩
    · simp only [hr2] at h
      exact Option.noConfusion h
    · simp only [hr2, Option.some.injEq] at h
      obtain ⟨a2, b2, hre, hbn⟩ := readU16_inv rest bn d hr2
      have ha2 : a2 < 256 := hBrest a2 (by rw [hre]; simp)
      have hb2 : b2 < 256 := hBrest b2 (by rw [hre]; simp)
      rw [← h]
      show bn < 65536
      omega
  · rcases hr2 : readU16 rest with _ | ⟨bn, d⟩
    · simp only [hr2] at h
      exact Option.noConfusion h
    · simp only [hr2, Option.some.injEq] at h
      obtain ⟨a2, b2, hre, hbn⟩ := readU16_inv rest bn d hr2
      have ha2 : a2 < 256 := hBrest a2 (by rw [hre]; simp)
      have hb2 : b2 < 256 := hBrest b2 (by rw [hre]; simp)
      rw [← h]
      show bn < 65536
      omega
  · rcases hr2 : readU16 rest with _ | ⟨c, r2⟩
    · simp only [hr2] at h
      exact Option.noConfusion h
    simp only [hr2] at h
    rcases hc : ErrorCode.fromNat c with _ | code
    · simp only [hc] at h
      exact Option.noConfusion h
    simp only [hc] at h
    rcases hsn : stringsNext r2 with ⟨o1, r3⟩
    simp only [hsn] at h
    rcases o1 with _ | msg
    · exact Option.noConfusion h
    simp only [Option.some.injEq] at h
    obtain ⟨_, hWF⟩ := stringsNext_some r2 msg r3 hsn
    rw [← h]
    exact hWF
  · simp only [Option.some.injEq] at h
    rw [← h]
    show ∀ x ∈ readOptions rest, optWF x
    exact fun x hx => readOptionsAux_wf _ rest x hx
  · exact Option.noConfusion h

/-- C4: codec round-trip.  For every well-formed packet value within the
allowed size envelope (valid NUL-free UTF-8 strings, `u16` block numbers,
option values within the documented bounds, requests within the 512-byte
body ceiling), decoding the encoding yields the same packet; and every
byte string that decodes successfully re-encodes to bytes that decode
successfully (to the same packet). -/
theorem c4_codec_roundtrip :
    (∀ P : Packet, P.wf → Packet.read (Packet.writeBytes P) = some P) ∧
    (∀ (B : List Nat) (P : Packet), (∀ b ∈ B, b < 256) → Packet.read B = some P →
      Packet.read (Packet.writeBytes P) = some P) :=
  ⟨read_writeBytes_of_wf,
   fun B P hB h => read_writeBytes_of_wf P (read_wf B P hB h)⟩

/-- C4 witness: the round-trip applied to a concrete RRQ carrying an
option and to a concrete ERROR packet. -/
theorem c4_witness :
    Packet.read (Packet.writeBytes (.RRQ (strB (r"f.txt")) .Octet [.Blocksize 1024])) =
      some (.RRQ (strB (r"f.txt")) .Octet [.Blocksize 1024]) ∧
    Packet.read (Packet.writeBytes (.ERROR .NoUser (strB (r"no")))) =
      some (.ERROR .NoUser (strB (r"no"))) :=
  ⟨c4_codec_roundtrip.1 _
      ⟨⟨by decide, by decide⟩,
       by
        intro x hx
        simp only [List.mem_singleton] at hx
        subst hx
        exact ⟨by decide, by decide⟩,
       by decide⟩,
   c4_codec_roundtrip.1 _ ⟨by decide, by decide⟩⟩

end Codec

end Tftp
